import Mathlib

/-!
# GoMusic: QQ Music playlist resolution

A shallow embedding of `logic/qqmusic.go` and `misc/models/qqmusic.go`.

* Go `string` values that carry text (links, names, titles) are Lean `String`s;
  wherever the Go code indexes a string by byte (`s[i]`, `len`, slicing) the
  embedding works on the UTF-8 encoding `utf8 s`, a list of byte values.
* Go `[]byte` payloads are `Bytes`.
* Go `int` is the 64-bit signed integer; values are `Int` and the only place
  where the width matters (`strconv.Atoi`) checks the range explicitly.
* The `regexp` patterns are values of `Regexp`, matched by derivatives over the
  characters (runes) of the text.
* Collaborators outside the repository sources (`httputil`, `utils`,
  `encoding/json`, the HTTP client) are fields of `Collaborators`; every call
  to one that performs I/O is recorded in a `Call` trace.
* `extractPlaylistID` recurses without a bound in Go, so the embedding takes a
  recursion budget and answers `none` when the budget is exhausted.
-/

namespace GoMusic

/-! ## Strings and bytes -/

/-- A Go byte slice, one `Nat` below 256 per byte. -/
abbrev Bytes := List Nat

/-- The bytes of a Go string holding the text `s`. -/
def utf8 (s : String) : Bytes :=
  (s.data.flatMap String.utf8EncodeChar).map UInt8.toNat

/-- Go `strings.HasPrefix` on bytes. -/
def hasPrefix : Bytes → Bytes → Bool
  | _, [] => true
  | [], _ :: _ => false
  | a :: s, b :: p => a == b && hasPrefix s p

/-- Go `strings.HasSuffix` on bytes. -/
def hasSuffix (s suffix : Bytes) : Bool :=
  hasPrefix s.reverse suffix.reverse

/-- Go `strings.Index`: byte offset of the first occurrence of `sub` in `s`,
or `-1` when there is none. -/
def stringsIndex : Bytes → Bytes → Int
  | [], sub => if sub.isEmpty then 0 else -1
  | b :: s, sub =>
    if hasPrefix (b :: s) sub then 0
    else
      let r := stringsIndex s sub
      if r < 0 then -1 else r + 1

/-- Go `strings.Join`. -/
def stringsJoin (elems : List String) (sep : String) : String :=
  sep.intercalate elems

/-! ## Errors -/

/-- Go `error` values produced by the code.  `new` is `errors.New` (and any
error coming from a collaborator), `wrap` is `fmt.Errorf("text: %w", cause)`,
`wrapNil` is the same call with a nil cause, `numError` is the
`*strconv.NumError` of `Atoi` with the offending input and whether the cause is
`ErrRange` (otherwise `ErrSyntax`). -/
inductive Error where
  | new (text : String)
  | wrap (text : String) (cause : Error)
  | wrapNil (text : String)
  | numError (num : Bytes) (range : Bool)
  deriving DecidableEq, Repr

deriving instance DecidableEq for Except

/-! ## `strconv.Atoi` -/

/-- Outcome of the digit loop of `strconv.ParseUint(s, 10, 64)`. -/
inductive UintResult where
  | value (n : Nat)
  | syntaxError
  | rangeError
  deriving DecidableEq, Repr

/-- The digit loop of `strconv.ParseUint` in base 10 with 64 bits: stops with
a syntax error at the first byte that is not a digit and with a range error as
soon as the accumulated value leaves `uint64`. -/
def parseUintLoop : Bytes → Nat → UintResult
  | [], n => .value n
  | c :: cs, n =>
    if c < 48 || c > 57 then .syntaxError
    else if n * 10 + (c - 48) > 2 ^ 64 - 1 then .rangeError
    else parseUintLoop cs (n * 10 + (c - 48))

/-- Go `strconv.Atoi` for a 64-bit `int`: an optional sign, then one or more
decimal digits, the value within `[-2^63, 2^63 - 1]`. -/
def Atoi (s : Bytes) : Except Error Int :=
  let neg := s.head? == some 45
  let ds := if s.head? == some 45 || s.head? == some 43 then s.tail else s
  if ds.isEmpty then .error (.numError s false)
  else
    match parseUintLoop ds 0 with
    | .syntaxError => .error (.numError s false)
    | .rangeError => .error (.numError s true)
    | .value un =>
      if !neg && un ≥ 2 ^ 63 then .error (.numError s true)
      else if neg && un > 2 ^ 63 then .error (.numError s true)
      else .ok (if neg then -(un : Int) else (un : Int))

/-! ## Regular expressions -/

/-- The fragment of Go `regexp` syntax the code uses. `chr p` is one character
satisfying `p`, `eot` is `$` without the `m` flag (end of text). -/
inductive Regexp where
  | empty
  | eps
  | chr (p : Char → Bool)
  | cat (a b : Regexp)
  | alt (a b : Regexp)
  | star (a : Regexp)
  | eot

namespace Regexp

/-- Whether the expression matches the empty string at the current position;
`atEnd` says whether that position is the end of the text. -/
def nullable (atEnd : Bool) : Regexp → Bool
  | empty => false
  | eps => true
  | chr _ => false
  | cat a b => nullable atEnd a && nullable atEnd b
  | alt a b => nullable atEnd a || nullable atEnd b
  | star _ => true
  | eot => atEnd

/-- Concatenation that drops a dead or empty left factor. -/
def mkCat : Regexp → Regexp → Regexp
  | empty, _ => empty
  | eps, b => b
  | a, b => cat a b

/-- Alternation that drops a dead left branch. -/
def mkAlt : Regexp → Regexp → Regexp
  | empty, b => b
  | a, b => alt a b

/-- Brzozowski derivative: what remains to be matched after reading `c`. -/
def deriv : Regexp → Char → Regexp
  | empty, _ => empty
  | eps, _ => empty
  | chr p, c => if p c then eps else empty
  | cat a b, c =>
    if nullable false a then mkAlt (mkCat (deriv a c) b) (deriv b c)
    else mkCat (deriv a c) b
  | alt a b, c => mkAlt (deriv a c) (deriv b c)
  | star a, c => mkCat (deriv a c) (star a)
  | eot, _ => empty

/-- Whether some prefix of the text matches the expression. -/
def matchPrefix : Regexp → List Char → Bool
  | r, [] => nullable true r
  | r, c :: cs => nullable false r || matchPrefix (deriv r c) cs

/-- Whether a match starts at some position of the text. -/
def search (r : Regexp) : List Char → Bool
  | [] => matchPrefix r []
  | c :: cs => matchPrefix r (c :: cs) || search r cs

/-- Go `(*Regexp).MatchString`: the text contains a match. -/
def MatchString (r : Regexp) (s : String) : Bool :=
  search r s.data

/-- A literal string. -/
def lit : List Char → Regexp
  | [] => eps
  | c :: cs => cat (chr (fun x => x == c)) (lit cs)

/-- The class `\d`, ASCII digits only. -/
def digit : Regexp := chr (fun c => decide (48 ≤ c.toNat) && decide (c.toNat ≤ 57))

/-- The pattern `.`, any character but a newline. -/
def dot : Regexp := chr (fun c => c != Char.ofNat 10)

/-- One or more repetitions, `a+`. -/
def plus (a : Regexp) : Regexp := cat a (star a)

end Regexp

/-- The pattern `fcgi-bin`. -/
def shortLinkRegex : Regexp := .lit "fcgi-bin".data

/-- The pattern `details`. -/
def detailsLinkRegex : Regexp := .lit "details".data

/-- The pattern `id=\d+`. -/
def idParamLinkRegex : Regexp := .cat (.lit "id=".data) (.plus .digit)

/-- The pattern `.*playlist/\d+$`. -/
def playlistLinkRegex : Regexp :=
  .cat (.star .dot) (.cat (.lit "playlist/".data) (.cat (.plus .digit) .eot))

/-! ## `extractNumberAfterKeyword` -/

/-- The loop that finds where the digits end: `rest` is `s[i:]`, the result is
the first index at or after `i` whose byte is not a digit, or `len(s)`. -/
def digitsEnd : Bytes → Nat → Nat
  | [], i => i
  | b :: rest, i => if b < 48 || b > 57 then i else digitsEnd rest (i + 1)

/-- Go `extractNumberAfterKeyword`. -/
def extractNumberAfterKeyword (s keyword : String) : Except Error Int :=
  let index := stringsIndex (utf8 s) (utf8 keyword)
  if index < 0 then .error (.new ("未找到关键词: " ++ keyword))
  else
    let startIndex := index.toNat + (utf8 keyword).length
    let endIndex := digitsEnd ((utf8 s).drop startIndex) startIndex
    let numStr := ((utf8 s).drop startIndex).take (endIndex - startIndex)
    match Atoi numStr with
    | .error err => .error (.wrap "数字转换失败" err)
    | .ok num => .ok num

/-! ## Data model (`misc/models/qqmusic.go`) -/

/-- The anonymous struct with the single field `name`. -/
structure Singer where
  Name : String
  deriving DecidableEq, Repr

/-- An element of `QQMusicResp.Req0.Data.Songlist`. -/
structure Song where
  Name : String
  Singer : List Singer
  deriving DecidableEq, Repr

/-- The struct `QQMusicResp.Req0.Data.Dirinfo`. -/
structure Dirinfo where
  Title : String
  Songnum : Int
  deriving DecidableEq, Repr

/-- The struct `QQMusicResp.Req0.Data`. -/
structure RespData where
  Dirinfo : Dirinfo
  Songlist : List Song
  deriving DecidableEq, Repr

/-- The struct `QQMusicResp.Req0`. -/
structure RespReq0 where
  Code : Int
  Data : RespData
  deriving DecidableEq, Repr

/-- Go `QQMusicResp`, the canonical response. -/
structure QQMusicResp where
  Code : Int
  Req0 : RespReq0
  deriving DecidableEq, Repr

/-- An element of `QQMusicLegacyResp.Cdlist[_].Songlist`. -/
structure LegacySong where
  Songname : String
  Singer : List Singer
  deriving DecidableEq, Repr

/-- An element of `QQMusicLegacyResp.Cdlist`. -/
structure Cd where
  Dissname : String
  Songnum : Int
  Songlist : List LegacySong
  deriving DecidableEq, Repr

/-- Go `QQMusicLegacyResp`. -/
structure QQMusicLegacyResp where
  Code : Int
  Cdlist : List Cd
  deriving DecidableEq, Repr

/-- Go `SongList`, the playlist handed back to the caller. -/
structure SongList where
  Name : String
  Songs : List String
  SongsCount : Int
  deriving DecidableEq, Repr

/-- The struct `QQMusicReq.Req0.Param`. -/
structure ReqParam where
  Disstid : Int
  EncHostUin : String
  Tag : Int
  Userinfo : Int
  SongBegin : Int
  SongNum : Int
  deriving DecidableEq, Repr

/-- The struct `QQMusicReq.Req0`. -/
structure ReqReq0 where
  Module : String
  Method : String
  Param : ReqParam
  deriving DecidableEq, Repr

/-- The struct `QQMusicReq.Comm`. -/
structure ReqComm where
  GTk : Int
  Uin : Int
  Format : String
  Platform : String
  deriving DecidableEq, Repr

/-- Go `QQMusicReq`. -/
structure QQMusicReq where
  Req0 : ReqReq0
  Comm : ReqComm
  deriving DecidableEq, Repr

/-- Go `NewQQMusicReq`. -/
def NewQQMusicReq (disstid : Int) (platform : String) (songBegin songNum : Int) : QQMusicReq :=
  { Req0 :=
      { Module := "music.srfDissInfo.aiDissInfo"
        Method := "uniform_get_Dissinfo"
        Param :=
          { Disstid := disstid
            EncHostUin := ""
            Tag := 1
            Userinfo := 1
            SongBegin := songBegin
            SongNum := songNum } }
    Comm :=
      { GTk := 5381
        Uin := 0
        Format := "json"
        Platform := platform } }

/-- The inner loop of `ToStandardResp`: append one converted singer per
element of `song.Singer`, starting from the nil slice. -/
def convertSingers (singers : List Singer) : List Singer :=
  singers.foldl (fun converted s => converted ++ [{ Name := s.Name }]) []

/-- The outer loop of `ToStandardResp`: append one converted song per element
of `cd.Songlist`. -/
def convertSongs (songlist : List LegacySong) : List Song :=
  songlist.foldl
    (fun acc song => acc ++ [{ Name := song.Songname, Singer := convertSingers song.Singer }]) []

/-- Go `(*QQMusicLegacyResp).ToStandardResp`; `none` is the nil result. -/
def QQMusicLegacyResp.ToStandardResp (r : QQMusicLegacyResp) : Option QQMusicResp :=
  if r.Code ≠ 0 || r.Cdlist.length == 0 then none
  else
    match r.Cdlist with
    | [] => none
    | cd :: _ =>
      some
        { Code := r.Code
          Req0 :=
            { Code := 0
              Data :=
                { Dirinfo := { Title := cd.Dissname, Songnum := cd.Songnum }
                  Songlist := convertSongs cd.Songlist } } }

/-! ## Collaborators and call traces -/

/-- What the HTTP exchange of `fetchPlaylistViaLegacyAPI` can come to:
`http.NewRequest` fails, `client.Do` fails, `io.ReadAll` fails, or a body is
read. -/
inductive LegacyExchange where
  | requestError (err : Error)
  | doError (err : Error)
  | readError (err : Error)
  | body (data : Bytes)
  deriving DecidableEq, Repr

/-- The code outside the repository sources that the logic calls.
`PostWithHeaders` stands for signing the marshalled request, posting it and
reading the body (`io.ReadAll`, whose error the code discards). -/
structure Collaborators where
  GetRedirectLocation : String → Except Error String
  GetQQMusicParam : String → Except Error String
  StandardSongName : String → String
  LegacyHTTP : String → LegacyExchange
  PostWithHeaders : QQMusicReq → Except Error Bytes
  UnmarshalLegacy : Bytes → Except Error QQMusicLegacyResp
  UnmarshalResp : Bytes → Except Error QQMusicResp
  MarshalResp : QQMusicResp → Except Error Bytes

/-- One recorded call: to a collaborator doing I/O, or the entry into
`fetchPlaylistData`. -/
inductive Call where
  | redirect (link : String)
  | getParam (link : String)
  | fetchData (tid : Int)
  | legacyGet (url : String)
  | post (req : QQMusicReq)
  deriving DecidableEq, Repr

/-- Put calls made earlier in front of the trace of a sub-computation. -/
def after {α : Type} (calls : List Call) (r : α × List Call) : α × List Call :=
  (r.1, calls ++ r.2)

/-! ## Constants -/

/-- Go `qqMusicLegacyAPIURL`. -/
def qqMusicLegacyAPIURL : String := "http://c.y.qq.com/qzone/fcg-bin/fcg_ucc_getcdinfo_byids_cp.fcg"

/-- Go `qqMusicErrorResponseLength`. -/
def qqMusicErrorResponseLength : Nat := 108

/-- Go `maxSongsPerPage`. -/
def maxSongsPerPage : Int := 1000

/-- The slice `platforms` of `fetchPlaylistPage`. -/
def platforms : List String :=
  ["-1", "android", "iphone", "h5", "wxfshare", "iphone_wx", "windows"]

/-! ## Identifier extraction (`logic/qqmusic.go`) -/

/-- Go `extractPlaylistID`.  The first argument bounds the recursion depth;
`none` means the bound was reached before the function returned. -/
def extractPlaylistID (c : Collaborators) :
    Nat → String → Option (Except Error Int × List Call)
  | 0, _ => none
  | fuel + 1, link =>
    if playlistLinkRegex.MatchString link then
      some (extractNumberAfterKeyword link "playlist/", [])
    else if idParamLinkRegex.MatchString link then
      some (extractNumberAfterKeyword link "id=", [])
    else if shortLinkRegex.MatchString link then
      match c.GetRedirectLocation link with
      | .error err => some (.error (.wrap "处理短链接失败" err), [.redirect link])
      | .ok redirectedLink =>
        (extractPlaylistID c fuel redirectedLink).map (after [.redirect link])
    else if detailsLinkRegex.MatchString link then
      match c.GetQQMusicParam link with
      | .error err => some (.error (.wrap "提取歌单ID失败" err), [.getParam link])
      | .ok tidString =>
        match Atoi (utf8 tidString) with
        | .error err => some (.error (.wrap "歌单ID格式错误" err), [.getParam link])
        | .ok tid => some (.ok tid, [.getParam link])
    else some (.error (.new "无效的歌单链接格式"), [])

/-! ## Fetching -/

/-- The platform loop of `fetchPlaylistPage` over the identities still to be
tried; `lastErr` is the Go variable of that name (`none` for nil). -/
def fetchPlaylistPageLoop (c : Collaborators) (tid songBegin songNum : Int) :
    List String → Option Error → Except Error Bytes × List Call
  | [], lastErr =>
    match lastErr with
    | some err => (.error (.wrap "尝试所有平台参数均失败" err), [])
    | none => (.error (.wrapNil "尝试所有平台参数均失败"), [])
  | platform :: rest, _ =>
    let req := NewQQMusicReq tid platform songBegin songNum
    match c.PostWithHeaders req with
    | .error err =>
      after [.post req] (fetchPlaylistPageLoop c tid songBegin songNum rest (some err))
    | .ok data =>
      if data.length ≠ qqMusicErrorResponseLength then (.ok data, [.post req])
      else after [.post req] (fetchPlaylistPageLoop c tid songBegin songNum rest none)

/-- Go `fetchPlaylistPage`. -/
def fetchPlaylistPage (c : Collaborators) (tid songBegin songNum : Int) :
    Except Error Bytes × List Call :=
  fetchPlaylistPageLoop c tid songBegin songNum platforms none

/-- Go `fetchPlaylistViaNewAPI`. -/
def fetchPlaylistViaNewAPI (c : Collaborators) (tid : Int) : Except Error Bytes × List Call :=
  fetchPlaylistPage c tid 0 maxSongsPerPage

/-- The `jsonCallback(...)` unwrapping of `fetchPlaylistViaLegacyAPI`. -/
def stripJsonCallback (data : Bytes) : Bytes :=
  if hasPrefix data (utf8 "jsonCallback(") && hasSuffix data (utf8 ")") then
    (data.drop (utf8 "jsonCallback(").length).take
      (data.length - 1 - (utf8 "jsonCallback(").length)
  else data

/-- Go `fetchPlaylistViaLegacyAPI`. -/
def fetchPlaylistViaLegacyAPI (c : Collaborators) (tid : Int) :
    Except Error Bytes × List Call :=
  let requestURL :=
    qqMusicLegacyAPIURL ++ "?type=1&utf8=1&disstid=" ++ toString tid ++ "&loginUin=0"
  match c.LegacyHTTP requestURL with
  | .requestError err => (.error (.wrap "创建请求失败" err), [.legacyGet requestURL])
  | .doError err => (.error (.wrap "请求失败" err), [.legacyGet requestURL])
  | .readError err => (.error (.wrap "读取响应失败" err), [.legacyGet requestURL])
  | .body data =>
    after [.legacyGet requestURL] <|
      match c.UnmarshalLegacy (stripJsonCallback data) with
      | .error err => (.error (.wrap "解析旧版响应失败" err), [])
      | .ok legacyResp =>
        if legacyResp.Code ≠ 0 || legacyResp.Cdlist.length == 0 then
          (.error (.new ("旧版API返回无效响应: code=" ++ toString legacyResp.Code
            ++ ", cdlist长度=" ++ toString legacyResp.Cdlist.length)), [])
        else
          match legacyResp.ToStandardResp with
          | none => (.error (.new "转换响应格式失败"), [])
          | some standardResp =>
            match c.MarshalResp standardResp with
            | .error err => (.error (.wrap "序列化响应失败" err), [])
            | .ok result => (.ok result, [])

/-- Go `fetchPlaylistData`; the entry into the function is recorded. -/
def fetchPlaylistData (c : Collaborators) (tid : Int) : Except Error Bytes × List Call :=
  after [.fetchData tid] <|
    match fetchPlaylistViaLegacyAPI c tid with
    | (.error _, calls) => after calls (fetchPlaylistViaNewAPI c tid)
    | (.ok data, calls) => (.ok data, calls)

/-! ## Building the song list -/

/-- The loop in `buildSongList` that collects the singer names. -/
def singerNames (singer : List Singer) : List String :=
  singer.foldl (fun singers s => singers ++ [s.Name]) []

/-- The display string `buildSongList` writes for one song. -/
def songLine (standardSongName : String → String) (detailed : Bool) (song : Song) : String :=
  (if detailed then song.Name else standardSongName song.Name)
    ++ " - " ++ stringsJoin (singerNames song.Singer) " / "

/-- Go `buildSongList`, with `utils.StandardSongName` as a parameter. -/
def buildSongList (standardSongName : String → String) (response : QQMusicResp)
    (detailed : Bool) : SongList :=
  let songsCount := response.Req0.Data.Dirinfo.Songnum
  let songList := response.Req0.Data.Songlist
  let songs := songList.foldl
    (fun songs song => songs ++ [songLine standardSongName detailed song]) []
  { Name := response.Req0.Data.Dirinfo.Title
    Songs := songs
    SongsCount := songsCount }

/-! ## Entry point -/

/-- Go `QQMusicDiscover`; the first argument is the recursion bound handed to
`extractPlaylistID`. -/
def QQMusicDiscover (c : Collaborators) (fuel : Nat) (link : String) (detailed : Bool) :
    Option (Except Error SongList × List Call) :=
  match extractPlaylistID c fuel link with
  | none => none
  | some (.error _, calls) => some (.error (.new "无效的歌单链接"), calls)
  | some (.ok tid, calls) =>
    if tid == 0 then some (.error (.new "无效的歌单链接"), calls)
    else
      some <| after calls <|
        match fetchPlaylistData c tid with
        | (.error err, calls) => (.error (.wrap "获取歌单数据失败" err), calls)
        | (.ok responseData, calls) =>
          match c.UnmarshalResp responseData with
          | .error err => (.error (.wrap "解析歌单数据失败" err), calls)
          | .ok qqMusicResponse =>
            (.ok (buildSongList c.StandardSongName qqMusicResponse detailed), calls)

/-! ## Vocabulary of the statements -/

namespace Regexp

/-- Textbook semantics: `Matches r w t` says that `r` matches the segment `w`
of a text in which `w` is followed by `t`; `eot` holds only where nothing
follows. -/
inductive Matches : Regexp → List Char → List Char → Prop where
  | eps (t : List Char) : Matches eps [] t
  | chr (p : Char → Bool) (c : Char) (t : List Char) : p c = true → Matches (chr p) [c] t
  | cat (a b : Regexp) (w1 w2 t : List Char) :
    Matches a w1 (w2 ++ t) → Matches b w2 t → Matches (cat a b) (w1 ++ w2) t
  | altL (a b : Regexp) (w t : List Char) : Matches a w t → Matches (alt a b) w t
  | altR (a b : Regexp) (w t : List Char) : Matches b w t → Matches (alt a b) w t
  | starNil (a : Regexp) (t : List Char) : Matches (star a) [] t
  | starCons (a : Regexp) (w1 w2 t : List Char) :
    Matches a w1 (w2 ++ t) → Matches (star a) w2 t → Matches (star a) (w1 ++ w2) t
  | eot : Matches eot [] []

end Regexp

/-- An ASCII digit, as the class `\d` has it. -/
def isDigitChar (c : Char) : Bool := decide (48 ≤ c.toNat) && decide (c.toNat ≤ 57)

/-- The value of a run of decimal digits. -/
def decimalValue (d : List Char) : Nat :=
  d.foldl (fun n c => n * 10 + (c.toNat - 48)) 0

/-- The value of a run of decimal digit bytes. -/
def bytesValue (d : Bytes) (n : Nat) : Nat :=
  d.foldl (fun n b => n * 10 + (b - 48)) n

/-- The link shapes of the specification. -/
inductive LinkShape where
  | PlaylistPath
  | IdQueryParam
  | ShortRedirect
  | DetailsPage
  | Unrecognized
  deriving DecidableEq, Repr

/-- Classification as the specification words it: the first shape whose
pattern matches the raw link, in the order PlaylistPath, IdQueryParam,
ShortRedirect, DetailsPage; no match is Unrecognized. -/
def classify (link : String) : LinkShape :=
  if playlistLinkRegex.MatchString link then .PlaylistPath
  else if idParamLinkRegex.MatchString link then .IdQueryParam
  else if shortLinkRegex.MatchString link then .ShortRedirect
  else if detailsLinkRegex.MatchString link then .DetailsPage
  else .Unrecognized

/-- A call made by the handler of the shape that the link it names has. -/
def callOfOwnShape (call : Call) : Prop :=
  (∃ l, call = .redirect l ∧ classify l = .ShortRedirect) ∨
  (∃ l, call = .getParam l ∧ classify l = .DetailsPage)

/-- The attempt for one platform identity fails: the transport reports an
error or the body read has the length of the provider's error body. -/
def platformFails (c : Collaborators) (tid songBegin songNum : Int) (platform : String) : Prop :=
  (∃ err, c.PostWithHeaders (NewQQMusicReq tid platform songBegin songNum) = .error err) ∨
  ∃ data, c.PostWithHeaders (NewQQMusicReq tid platform songBegin songNum) = .ok data ∧
    data.length = 108

/-- The requests issued for a list of platform identities, in order. -/
def postCalls (tid songBegin songNum : Int) (ps : List String) : List Call :=
  ps.map (fun platform => Call.post (NewQQMusicReq tid platform songBegin songNum))

/-- Calls made by `fetchPlaylistData` or below it. -/
def isFetchCall : Call → Bool
  | .fetchData _ => true
  | .legacyGet _ => true
  | .post _ => true
  | .redirect _ => false
  | .getParam _ => false

/-- The link reached from `link` by `k` redirect hops, each taken from a link
whose first matching shape is ShortRedirect and whose resolution succeeds. -/
def landing (c : Collaborators) : Nat → String → Option String
  | 0, link => some link
  | k + 1, link =>
    if classify link = .ShortRedirect then
      match c.GetRedirectLocation link with
      | .ok redirectedLink => landing c k redirectedLink
      | .error _ => none
    else none

/-- The number of redirect-resolution calls in a trace. -/
def redirectCount (tr : List Call) : Nat :=
  tr.countP (fun call => match call with
    | .redirect _ => true
    | _ => false)

/-! ## Example data -/

/-- The legacy response of the specification's example: code 0, one playlist
"Road Trip" declaring two songs and holding two. -/
def roadTrip : QQMusicLegacyResp :=
  { Code := 0
    Cdlist :=
      [{ Dissname := "Road Trip"
         Songnum := 2
         Songlist :=
           [{ Songname := "First", Singer := [{ Name := "A" }, { Name := "B" }] },
            { Songname := "Second", Singer := [] }] }] }

/-- The canonical form of `roadTrip`. -/
def roadTripResp : QQMusicResp :=
  { Code := 0
    Req0 :=
      { Code := 0
        Data :=
          { Dirinfo := { Title := "Road Trip", Songnum := 2 }
            Songlist :=
              [{ Name := "First", Singer := [{ Name := "A" }, { Name := "B" }] },
               { Name := "Second", Singer := [] }] } } }

/-- A canonical response holding one song with an empty name and no artist. -/
def namelessResp : QQMusicResp :=
  { Code := 0
    Req0 :=
      { Code := 0
        Data :=
          { Dirinfo := { Title := "t", Songnum := 1 }
            Songlist := [{ Name := "", Singer := [] }] } } }

/-- Collaborators that fail every call; examples override single fields. -/
def failing : Collaborators :=
  { GetRedirectLocation := fun _ => .error (.new "no redirect")
    GetQQMusicParam := fun _ => .error (.new "no parameter")
    StandardSongName := fun name => name
    LegacyHTTP := fun _ => .doError (.new "unreachable")
    PostWithHeaders := fun _ => .error (.new "unreachable")
    UnmarshalLegacy := fun _ => .error (.new "bad json")
    UnmarshalResp := fun _ => .error (.new "bad json")
    MarshalResp := fun _ => .error (.new "cannot marshal") }

/-- A transport whose first identity errors, whose second answers with 108
bytes and whose third answers with three bytes. -/
def thirdAnswers : Collaborators :=
  { failing with
    PostWithHeaders := fun req =>
      if req.Comm.Platform = "-1" then .error (.new "timeout")
      else if req.Comm.Platform = "android" then .ok (List.replicate 108 0)
      else .ok [123, 125, 10] }

/-- A share link of the short form. -/
def shareLink : String := "https://c.y.qq.com/base/fcgi-bin/u?__=4V33zWKDE3tI"

/-- A details page without an identifier in its text. -/
def detailsLink : String := "https://i.y.qq.com/n2/m/share/details/taoge.html"

/-- The short link redirects to the details page, whose reader yields an
identifier. -/
def shortToDetails : Collaborators :=
  { failing with
    GetRedirectLocation := fun link =>
      if link = shareLink then .ok detailsLink else .error (.new "no redirect")
    GetQQMusicParam := fun _ => .ok "7256912512" }

/-- The details reader yields the text `-5`; the legacy endpoint answers and
the JSON codecs decode the answer as `roadTrip`. -/
def negativeDetails : Collaborators :=
  { failing with
    GetQQMusicParam := fun _ => .ok "-5"
    LegacyHTTP := fun _ => .body (utf8 "jsonCallback()")
    UnmarshalLegacy := fun _ => .ok roadTrip
    MarshalResp := fun _ => .ok (utf8 "ok")
    UnmarshalResp := fun _ => .ok roadTripResp }

/-- The first of four short links that redirect to one another in turn. -/
def hop1 : String := "https://c.y.qq.com/base/fcgi-bin/u?__=1"

/-- The second short link. -/
def hop2 : String := "https://c.y.qq.com/base/fcgi-bin/u?__=2"

/-- The third short link. -/
def hop3 : String := "https://c.y.qq.com/base/fcgi-bin/u?__=3"

/-- The fourth short link. -/
def hop4 : String := "https://c.y.qq.com/base/fcgi-bin/u?__=4"

/-- The playlist page the fourth short link lands on. -/
def hopEnd : String := "https://y.qq.com/n/ryqq/playlist/5"

/-- A resolver that needs four hops to reach the playlist page. -/
def fourHops : Collaborators :=
  { failing with
    GetRedirectLocation := fun link =>
      if link = hop1 then .ok hop2
      else if link = hop2 then .ok hop3
      else if link = hop3 then .ok hop4
      else if link = hop4 then .ok hopEnd
      else .error (.new "no redirect") }

/-- A resolver that maps every link to itself. -/
def selfRedirect : Collaborators :=
  { failing with GetRedirectLocation := fun link => .ok link }

/-! ## Loops that append are maps -/

theorem foldl_append_singleton {α β : Type} (f : α → β) (l : List α) (init : List β) :
    l.foldl (fun acc x => acc ++ [f x]) init = init ++ l.map f := by
  induction l generalizing init with
  | nil => simp
  | cons x xs ih => simp [ih]

theorem convertSingers_eq (singers : List Singer) : convertSingers singers = singers := by
  unfold convertSingers
  rw [foldl_append_singleton (fun s : Singer => ({ Name := s.Name } : Singer))]
  simp

theorem convertSongs_eq (songlist : List LegacySong) :
    convertSongs songlist
      = songlist.map (fun song => ({ Name := song.Songname, Singer := song.Singer } : Song)) := by
  unfold convertSongs
  rw [foldl_append_singleton
    (fun song : LegacySong =>
      ({ Name := song.Songname, Singer := convertSingers song.Singer } : Song))]
  simp [convertSingers_eq]

theorem singerNames_eq (singer : List Singer) : singerNames singer = singer.map Singer.Name := by
  unfold singerNames
  rw [foldl_append_singleton Singer.Name]
  simp

theorem buildSongList_songs (f : String → String) (r : QQMusicResp) (detailed : Bool) :
    (buildSongList f r detailed).Songs = r.Req0.Data.Songlist.map (songLine f detailed) := by
  unfold buildSongList
  simp only []
  rw [foldl_append_singleton (songLine f detailed)]
  simp

/-! ## The matcher decides the textbook semantics -/

namespace Regexp

theorem nullable_of_matches {r : Regexp} {w t : List Char} (h : Matches r w t) (hw : w = []) :
    nullable t.isEmpty r = true := by
  induction h with
  | eps t => rfl
  | chr p c t hp => cases hw
  | cat a b w1 w2 t ha hb iha ihb =>
    have h1 : w1 = [] := (List.append_eq_nil.mp hw).1
    have h2 : w2 = [] := (List.append_eq_nil.mp hw).2
    subst h2
    simp only [List.nil_append] at iha
    simp [nullable, iha h1, ihb rfl]
  | altL a b w t ha iha => simp [nullable, iha hw]
  | altR a b w t hb ihb => simp [nullable, ihb hw]
  | starNil a t => rfl
  | starCons a w1 w2 t ha hs iha ihs => rfl
  | eot => rfl

theorem matches_of_nullable (r : Regexp) (t : List Char) (h : nullable t.isEmpty r = true) :
    Matches r [] t := by
  induction r with
  | empty => simp [nullable] at h
  | eps => exact .eps t
  | chr p => simp [nullable] at h
  | cat a b iha ihb =>
    simp only [nullable, Bool.and_eq_true] at h
    exact .cat a b [] [] t (iha h.1) (ihb h.2)
  | alt a b iha ihb =>
    simp only [nullable, Bool.or_eq_true] at h
    rcases h with h | h
    · exact .altL a b [] t (iha h)
    · exact .altR a b [] t (ihb h)
  | star a _ => exact .starNil a t
  | eot =>
    simp only [nullable, List.isEmpty_iff] at h
    subst h
    exact .eot

theorem nullable_iff (r : Regexp) (t : List Char) :
    nullable t.isEmpty r = true ↔ Matches r [] t :=
  ⟨matches_of_nullable r t, fun h => nullable_of_matches h rfl⟩

theorem not_matches_empty (w t : List Char) : ¬ Matches empty w t := by
  intro h
  cases h

theorem matches_eps_iff (w t : List Char) : Matches eps w t ↔ w = [] := by
  constructor
  · intro h
    cases h
    rfl
  · rintro rfl
    exact .eps t

theorem matches_cat_iff (a b : Regexp) (w t : List Char) :
    Matches (cat a b) w t ↔
      ∃ w1 w2, w = w1 ++ w2 ∧ Matches a w1 (w2 ++ t) ∧ Matches b w2 t := by
  constructor
  · intro h
    cases h with
    | cat _ _ w1 w2 _ ha hb => exact ⟨w1, w2, rfl, ha, hb⟩
  · rintro ⟨w1, w2, rfl, ha, hb⟩
    exact .cat a b w1 w2 t ha hb

theorem matches_alt_iff (a b : Regexp) (w t : List Char) :
    Matches (alt a b) w t ↔ Matches a w t ∨ Matches b w t := by
  constructor
  · intro h
    cases h with
    | altL _ _ _ _ ha => exact Or.inl ha
    | altR _ _ _ _ hb => exact Or.inr hb
  · rintro (h | h)
    · exact .altL a b w t h
    · exact .altR a b w t h

theorem matches_mkCat_iff (a b : Regexp) (w t : List Char) :
    Matches (mkCat a b) w t ↔ Matches (cat a b) w t := by
  cases a with
  | empty =>
    simp only [mkCat, matches_cat_iff]
    constructor
    · intro h
      exact absurd h (not_matches_empty w t)
    · rintro ⟨w1, w2, _, ha, _⟩
      exact absurd ha (not_matches_empty _ _)
  | eps =>
    simp only [mkCat, matches_cat_iff, matches_eps_iff]
    constructor
    · intro h
      exact ⟨[], w, rfl, rfl, h⟩
    · rintro ⟨w1, w2, rfl, rfl, h⟩
      exact h
  | chr p => rfl
  | cat x y => rfl
  | alt x y => rfl
  | star x => rfl
  | eot => rfl

theorem matches_mkAlt_iff (a b : Regexp) (w t : List Char) :
    Matches (mkAlt a b) w t ↔ Matches (alt a b) w t := by
  cases a with
  | empty =>
    simp only [mkAlt, matches_alt_iff]
    constructor
    · intro h
      exact Or.inr h
    · rintro (h | h)
      · exact absurd h (not_matches_empty _ _)
      · exact h
  | eps => rfl
  | chr p => rfl
  | cat x y => rfl
  | alt x y => rfl
  | star x => rfl
  | eot => rfl

theorem matches_star_cons {r : Regexp} {x t : List Char} (h : Matches r x t)
    (a : Regexp) (c : Char) (w : List Char) (hr : r = star a) (hx : x = c :: w) :
    ∃ w1 w2, w = w1 ++ w2 ∧ Matches a (c :: w1) (w2 ++ t) ∧ Matches (star a) w2 t := by
  induction h with
  | eps t => cases hr
  | chr p c t hp => cases hr
  | cat a b w1 w2 t ha hb iha ihb => cases hr
  | altL a b w t ha iha => cases hr
  | altR a b w t hb ihb => cases hr
  | starNil a t => cases hx
  | starCons a' w1 w2 t ha hs _ ihs =>
    cases hr
    cases w1 with
    | nil => exact ihs rfl hx
    | cons d w1' =>
      simp only [List.cons_append, List.cons.injEq] at hx
      obtain ⟨rfl, rfl⟩ := hx
      exact ⟨w1', w2, rfl, ha, hs⟩
  | eot => cases hr

theorem matches_deriv_iff (r : Regexp) (c : Char) (w t : List Char) :
    Matches (deriv r c) w t ↔ Matches r (c :: w) t := by
  induction r generalizing w t with
  | empty =>
    simp only [deriv]
    exact ⟨fun h => absurd h (not_matches_empty _ _), fun h => absurd h (not_matches_empty _ _)⟩
  | eps =>
    simp only [deriv, matches_eps_iff]
    exact ⟨fun h => absurd h (not_matches_empty _ _), fun h => by cases h⟩
  | chr p =>
    simp only [deriv]
    constructor
    · intro h
      by_cases hp : p c = true
      · rw [if_pos hp, matches_eps_iff] at h
        subst h
        exact .chr p c t hp
      · rw [if_neg hp] at h
        exact absurd h (not_matches_empty _ _)
    · intro h
      cases h with
      | chr _ _ _ hp =>
        rw [if_pos hp]
        exact .eps t
  | cat a b iha ihb =>
    have key : Matches (cat a b) (c :: w) t ↔
        (Matches (cat (deriv a c) b) w t ∨
          (nullable false a = true ∧ Matches (deriv b c) w t)) := by
      rw [matches_cat_iff, matches_cat_iff]
      constructor
      · rintro ⟨w1, w2, hw, ha, hb⟩
        cases w1 with
        | nil =>
          simp only [List.nil_append] at hw
          subst hw
          refine Or.inr ⟨?_, (ihb w t).mpr hb⟩
          have := nullable_of_matches ha rfl
          simpa using this
        | cons d w1' =>
          simp only [List.cons_append, List.cons.injEq] at hw
          obtain ⟨rfl, rfl⟩ := hw
          exact Or.inl ⟨w1', w2, rfl, (iha w1' (w2 ++ t)).mpr ha, hb⟩
      · rintro (⟨w1, w2, rfl, ha, hb⟩ | ⟨hn, hb⟩)
        · exact ⟨c :: w1, w2, rfl, (iha w1 (w2 ++ t)).mp ha, hb⟩
        · refine ⟨[], c :: w, rfl, ?_, (ihb w t).mp hb⟩
          apply matches_of_nullable
          simpa using hn
    rw [key]
    simp only [deriv]
    by_cases hn : nullable false a = true
    · rw [if_pos hn, matches_mkAlt_iff, matches_alt_iff, matches_mkCat_iff]
      simp [hn]
    · rw [if_neg hn, matches_mkCat_iff]
      simp [hn]
  | alt a b iha ihb =>
    simp only [deriv]
    rw [matches_mkAlt_iff, matches_alt_iff, matches_alt_iff, iha, ihb]
  | star a iha =>
    simp only [deriv]
    rw [matches_mkCat_iff, matches_cat_iff]
    constructor
    · rintro ⟨w1, w2, rfl, ha, hs⟩
      exact .starCons a (c :: w1) w2 t ((iha w1 (w2 ++ t)).mp ha) hs
    · intro h
      obtain ⟨w1, w2, hw, ha, hs⟩ := matches_star_cons h a c w rfl rfl
      exact ⟨w1, w2, hw, (iha w1 (w2 ++ t)).mpr ha, hs⟩
  | eot =>
    simp only [deriv]
    exact ⟨fun h => absurd h (not_matches_empty _ _), fun h => by cases h⟩

theorem matchPrefix_iff (r : Regexp) (s : List Char) :
    matchPrefix r s = true ↔ ∃ w t, s = w ++ t ∧ Matches r w t := by
  induction s generalizing r with
  | nil =>
    simp only [matchPrefix]
    constructor
    · intro h
      exact ⟨[], [], rfl, matches_of_nullable r [] (by simpa using h)⟩
    · rintro ⟨w, t, hs, hm⟩
      have hw : w = [] := (List.append_eq_nil.mp hs.symm).1
      have ht : t = [] := (List.append_eq_nil.mp hs.symm).2
      subst hw ht
      simpa using nullable_of_matches hm rfl
  | cons c cs ih =>
    simp only [matchPrefix, Bool.or_eq_true, ih]
    constructor
    · rintro (h | ⟨w, t, rfl, hm⟩)
      · exact ⟨[], c :: cs, rfl, matches_of_nullable r _ (by simpa using h)⟩
      · exact ⟨c :: w, t, rfl, (matches_deriv_iff r c w t).mp hm⟩
    · rintro ⟨w, t, hs, hm⟩
      cases w with
      | nil =>
        simp only [List.nil_append] at hs
        subst hs
        exact Or.inl (by simpa using nullable_of_matches hm rfl)
      | cons d w' =>
        simp only [List.cons_append, List.cons.injEq] at hs
        obtain ⟨rfl, rfl⟩ := hs
        exact Or.inr ⟨w', t, rfl, (matches_deriv_iff r c w' t).mpr hm⟩

theorem search_iff (r : Regexp) (s : List Char) :
    search r s = true ↔ ∃ pre w t, s = pre ++ (w ++ t) ∧ Matches r w t := by
  induction s with
  | nil =>
    simp only [search, matchPrefix_iff]
    constructor
    · rintro ⟨w, t, hs, hm⟩
      exact ⟨[], w, t, hs, hm⟩
    · rintro ⟨pre, w, t, hs, hm⟩
      have hp : pre = [] := (List.append_eq_nil.mp hs.symm).1
      subst hp
      exact ⟨w, t, hs, hm⟩
  | cons c cs ih =>
    simp only [search, Bool.or_eq_true, matchPrefix_iff, ih]
    constructor
    · rintro (⟨w, t, hs, hm⟩ | ⟨pre, w, t, rfl, hm⟩)
      · exact ⟨[], w, t, hs, hm⟩
      · exact ⟨c :: pre, w, t, rfl, hm⟩
    · rintro ⟨pre, w, t, hs, hm⟩
      cases pre with
      | nil => exact Or.inl ⟨w, t, hs, hm⟩
      | cons d pre' =>
        simp only [List.cons_append, List.cons.injEq] at hs
        obtain ⟨rfl, rfl⟩ := hs
        exact Or.inr ⟨pre', w, t, rfl, hm⟩

/-- The derivative matcher decides the textbook semantics: `MatchString` holds
exactly when some segment of the text matches. -/
theorem MatchString_iff (r : Regexp) (s : String) :
    MatchString r s = true ↔ ∃ pre w t, s.data = pre ++ (w ++ t) ∧ Matches r w t :=
  search_iff r s.data

theorem matches_chr_iff (p : Char → Bool) (w t : List Char) :
    Matches (chr p) w t ↔ ∃ c, w = [c] ∧ p c = true := by
  constructor
  · intro h
    cases h with
    | chr _ c _ hp => exact ⟨c, rfl, hp⟩
  · rintro ⟨c, rfl, hp⟩
    exact .chr p c t hp

theorem matches_lit_iff (l w t : List Char) : Matches (lit l) w t ↔ w = l := by
  induction l generalizing w t with
  | nil => simp only [lit, matches_eps_iff]
  | cons c cs ih =>
    simp only [lit, matches_cat_iff, matches_chr_iff, ih]
    constructor
    · rintro ⟨w1, w2, rfl, ⟨d, rfl, hd⟩, rfl⟩
      have : d = c := by simpa using hd
      subst this
      rfl
    · rintro rfl
      exact ⟨[c], cs, rfl, ⟨c, rfl, by simp⟩, rfl⟩

theorem matches_star_chr {r : Regexp} {w t : List Char} (h : Matches r w t)
    (p : Char → Bool) (hr : r = star (chr p)) : ∀ c ∈ w, p c = true := by
  induction h with
  | eps t => cases hr
  | chr p c t hp => cases hr
  | cat a b w1 w2 t ha hb iha ihb => cases hr
  | altL a b w t ha iha => cases hr
  | altR a b w t hb ihb => cases hr
  | starNil a t => simp
  | starCons a' w1 w2 t ha hs _ ihs =>
    cases hr
    obtain ⟨d, rfl, hd⟩ := (matches_chr_iff p w1 _).mp ha
    intro c hc
    simp only [List.singleton_append, List.mem_cons] at hc
    rcases hc with rfl | hc
    · exact hd
    · exact ihs rfl c hc
  | eot => cases hr

theorem matches_star_chr_iff (p : Char → Bool) (w t : List Char) :
    Matches (star (chr p)) w t ↔ ∀ c ∈ w, p c = true := by
  constructor
  · intro h
    exact matches_star_chr h p rfl
  · intro h
    induction w with
    | nil => exact .starNil _ t
    | cons c cs ih =>
      exact .starCons (chr p) [c] cs t (.chr p c _ (h c (List.mem_cons_self _ _)))
        (ih (fun d hd => h d (List.mem_cons_of_mem _ hd)))

theorem matches_plus_chr_iff (p : Char → Bool) (w t : List Char) :
    Matches (plus (chr p)) w t ↔ w ≠ [] ∧ ∀ c ∈ w, p c = true := by
  simp only [plus, matches_cat_iff, matches_chr_iff, matches_star_chr_iff]
  constructor
  · rintro ⟨w1, w2, rfl, ⟨c, rfl, hc⟩, h2⟩
    refine ⟨by simp, ?_⟩
    intro d hd
    simp only [List.singleton_append, List.mem_cons] at hd
    rcases hd with rfl | hd
    · exact hc
    · exact h2 d hd
  · rintro ⟨hne, hall⟩
    cases w with
    | nil => exact absurd rfl hne
    | cons c cs =>
      exact ⟨[c], cs, rfl, ⟨c, rfl, hall c (List.mem_cons_self _ _)⟩,
        fun d hd => hall d (List.mem_cons_of_mem _ hd)⟩

end Regexp

/-! ## What the four patterns match -/

/-- `fcgi-bin` matches exactly the links that contain that text. -/
theorem shortLinkRegex_iff (s : String) :
    shortLinkRegex.MatchString s = true ↔ ∃ pre t, s.data = pre ++ ("fcgi-bin".data ++ t) := by
  simp only [shortLinkRegex, Regexp.MatchString_iff, Regexp.matches_lit_iff]
  constructor
  · rintro ⟨pre, w, t, hs, rfl⟩
    exact ⟨pre, t, hs⟩
  · rintro ⟨pre, t, hs⟩
    exact ⟨pre, _, t, hs, rfl⟩

/-- `details` matches exactly the links that contain that text. -/
theorem detailsLinkRegex_iff (s : String) :
    detailsLinkRegex.MatchString s = true ↔ ∃ pre t, s.data = pre ++ ("details".data ++ t) := by
  simp only [detailsLinkRegex, Regexp.MatchString_iff, Regexp.matches_lit_iff]
  constructor
  · rintro ⟨pre, w, t, hs, rfl⟩
    exact ⟨pre, t, hs⟩
  · rintro ⟨pre, t, hs⟩
    exact ⟨pre, _, t, hs, rfl⟩

/-- `id=\d+` matches exactly the links that contain `id=` followed by a
digit. -/
theorem idParamLinkRegex_iff (s : String) :
    idParamLinkRegex.MatchString s = true ↔
      ∃ pre d t, s.data = pre ++ ("id=".data ++ d :: t) ∧ isDigitChar d = true := by
  simp only [idParamLinkRegex, Regexp.MatchString_iff, Regexp.matches_cat_iff,
    Regexp.matches_lit_iff, Regexp.digit, Regexp.matches_plus_chr_iff]
  constructor
  · rintro ⟨pre, w, t, hs, w1, w2, rfl, rfl, hne, hall⟩
    cases w2 with
    | nil => exact absurd rfl hne
    | cons d ds =>
      refine ⟨pre, d, ds ++ t, ?_, hall d (List.mem_cons_self _ _)⟩
      simpa using hs
  · rintro ⟨pre, d, t, hs, hd⟩
    refine ⟨pre, "id=".data ++ [d], t, ?_, "id=".data, [d], rfl, rfl, by simp, ?_⟩
    · simpa using hs
    · intro c hc
      simp only [List.mem_singleton] at hc
      subst hc
      exact hd

/-- `.*playlist/\d+$` matches exactly the links that end in `playlist/`
followed by one or more digits. -/
theorem playlistLinkRegex_iff (s : String) :
    playlistLinkRegex.MatchString s = true ↔
      ∃ pre d, s.data = pre ++ ("playlist/".data ++ d) ∧ d ≠ [] ∧
        ∀ c ∈ d, isDigitChar c = true := by
  simp only [playlistLinkRegex, Regexp.MatchString_iff, Regexp.matches_cat_iff,
    Regexp.matches_lit_iff, Regexp.digit, Regexp.matches_plus_chr_iff]
  constructor
  · rintro ⟨pre, w, t, hs, w1, w2, rfl, _, w3, w4, rfl, rfl, w5, w6, rfl, ⟨hne, hall⟩, heot⟩
    cases heot
    refine ⟨pre ++ w1, w5, ?_, hne, hall⟩
    simpa using hs
  · rintro ⟨pre, d, hs, hne, hall⟩
    refine ⟨pre, "playlist/".data ++ d, [], by simpa using hs, [], "playlist/".data ++ d,
      rfl, ?_, "playlist/".data, d, rfl, rfl, d, [], by simp, ⟨hne, hall⟩, .eot⟩
    exact .starNil _ _

/-! ## Legacy mapping -/

/-- C3: `ToStandardResp` returns nil exactly when the top-level code is
non-zero or `cdlist` is empty; otherwise the result carries the first entry's
`dissname` as title, its `songnum` as declared count, and a song list of the
same length whose i-th entry has the i-th `songname` and the i-th singer names
in order; the entries of `cdlist` after the first do not matter. -/
theorem ToStandardResp_spec (r : QQMusicLegacyResp) :
    (r.ToStandardResp = none ↔ (r.Code ≠ 0 ∨ r.Cdlist = [])) ∧
    ∀ cd rest, r.Code = 0 → r.Cdlist = cd :: rest →
      ∃ resp, r.ToStandardResp = some resp ∧
        resp.Req0.Data.Dirinfo.Title = cd.Dissname ∧
        resp.Req0.Data.Dirinfo.Songnum = cd.Songnum ∧
        resp.Req0.Data.Songlist.length = cd.Songlist.length ∧
        (∀ i : Nat, (resp.Req0.Data.Songlist[i]?).map Song.Name
            = (cd.Songlist[i]?).map LegacySong.Songname) ∧
        (∀ i : Nat,
          (resp.Req0.Data.Songlist[i]?).map (fun s : Song => s.Singer.map Singer.Name)
            = (cd.Songlist[i]?).map (fun s : LegacySong => s.Singer.map Singer.Name)) ∧
        ∀ rest', QQMusicLegacyResp.ToStandardResp { Code := r.Code, Cdlist := cd :: rest' }
            = some resp := by
  obtain ⟨code, cdlist⟩ := r
  refine ⟨?_, ?_⟩
  · cases cdlist with
    | nil => simp [QQMusicLegacyResp.ToStandardResp]
    | cons cd rest =>
      by_cases hc : code = 0 <;> simp [QQMusicLegacyResp.ToStandardResp, hc]
  · intro cd rest hcode hlist
    simp only at hcode hlist
    subst hcode hlist
    refine ⟨_, by simp [QQMusicLegacyResp.ToStandardResp]; rfl, rfl, rfl, ?_, ?_, ?_, ?_⟩
    · simp [convertSongs_eq]
    · intro i
      simp [convertSongs_eq, List.getElem?_map, Option.map_map, Function.comp_def]
    · intro i
      simp [convertSongs_eq, List.getElem?_map, Option.map_map, Function.comp_def]
    · intro rest'
      simp [QQMusicLegacyResp.ToStandardResp]

/-- C3 at `roadTrip`. -/
theorem ToStandardResp_spec_witness :
    roadTrip.Code = 0 ∧ roadTrip.Cdlist.length = 1 ∧
    ∃ resp, roadTrip.ToStandardResp = some resp ∧
      resp.Req0.Data.Dirinfo.Title = "Road Trip" ∧
      resp.Req0.Data.Dirinfo.Songnum = 2 ∧
      resp.Req0.Data.Songlist.length = 2 := by
  obtain ⟨resp, h, ht, hn, hl, _⟩ :=
    (ToStandardResp_spec roadTrip).2 _ [] rfl rfl
  exact ⟨rfl, rfl, resp, h, ht, hn, hl⟩

/-! ## Song list builder -/

/-- C4: `buildSongList` copies the title and the declared song count, keeps
the songs in order with the same length, and renders the i-th song as the raw
name (detailed) or the cleaned name (otherwise), then `" - "`, then the artist
names joined by `" / "`; with `detailed = true` the cleaning transform plays no
part; `Song` by `A` and `B` renders `Song - A / B`, and with no artist
`Song - `. -/
theorem buildSongList_spec (f : String → String) (r : QQMusicResp) (detailed : Bool) :
    (buildSongList f r detailed).Name = r.Req0.Data.Dirinfo.Title ∧
    (buildSongList f r detailed).SongsCount = r.Req0.Data.Dirinfo.Songnum ∧
    (buildSongList f r detailed).Songs.length = r.Req0.Data.Songlist.length ∧
    (∀ i : Nat, (buildSongList f r detailed).Songs[i]?
        = (r.Req0.Data.Songlist[i]?).map (fun song : Song =>
            (if detailed then song.Name else f song.Name) ++ " - "
              ++ stringsJoin (song.Singer.map Singer.Name) " / ")) ∧
    (∀ g : String → String, buildSongList g r true = buildSongList f r true) ∧
    (buildSongList f
        { Code := r.Code
          Req0 :=
            { Code := r.Req0.Code
              Data :=
                { Dirinfo := r.Req0.Data.Dirinfo
                  Songlist :=
                    [{ Name := "Song", Singer := [{ Name := "A" }, { Name := "B" }] },
                     { Name := "Song", Singer := [] }] } } }
        true).Songs = ["Song - A / B", "Song - "] := by
  refine ⟨rfl, rfl, ?_, ?_, ?_, ?_⟩
  · simp [buildSongList_songs]
  · intro i
    have hl : songLine f detailed = fun song : Song =>
        (if detailed then song.Name else f song.Name) ++ " - "
          ++ stringsJoin (song.Singer.map Singer.Name) " / " := by
      funext song
      simp only [songLine, singerNames_eq]
    rw [buildSongList_songs, List.getElem?_map, hl]
  · intro g
    have hs : ∀ h : String → String, (buildSongList h r true).Songs
        = r.Req0.Data.Songlist.map (songLine h true) := fun h => buildSongList_songs h r true
    have hl : songLine g true = songLine f true := by
      funext song
      simp [songLine]
    have hg := hs g
    have hf := hs f
    rw [hl] at hg
    have hS : (buildSongList g r true).Songs = (buildSongList f r true).Songs := by
      rw [hg, hf]
    show ({ Name := _, Songs := (buildSongList g r true).Songs, SongsCount := _ } : SongList)
      = { Name := _, Songs := (buildSongList f r true).Songs, SongsCount := _ }
    rw [hS]
  · rw [buildSongList_songs]
    simp only [List.map, songLine, singerNames_eq, if_true]
    decide

/-! ## The bare separator -/

theorem string_length_zero (a : String) (h : a.length = 0) : a = "" := by
  apply String.ext
  have : a.data.length = 0 := h
  simpa using List.length_eq_zero.mp this

theorem append_separator_eq (a b : String) : a ++ " - " ++ b = " - " ↔ a = "" ∧ b = "" := by
  constructor
  · intro h
    have hl := congrArg String.length h
    simp only [String.length_append] at hl
    have h3 : (" - " : String).length = 3 := by decide
    rw [h3] at hl
    exact ⟨string_length_zero a (by omega), string_length_zero b (by omega)⟩
  · rintro ⟨rfl, rfl⟩
    rfl

/-- C9 fails as stated: a song with an empty name and no artist is rendered as
the bare separator, with either setting of the flag. -/
theorem buildSongList_emits_bare_separator :
    (buildSongList (fun name => name) namelessResp true).Songs = [" - "] ∧
    (buildSongList (fun name => name) namelessResp false).Songs = [" - "] := by
  constructor <;> decide

/-- C9 amended: every song is rendered, in order; the display string of a song
is the bare `" - "` exactly when its display name (the raw name when detailed,
the cleaned name otherwise) and its joined artist segment are both empty; a
song without artists is rendered as its display name followed by `" - "`. -/
theorem buildSongList_bare_separator_iff (f : String → String) (r : QQMusicResp)
    (detailed : Bool) (i : Nat) (song : Song) (h : r.Req0.Data.Songlist[i]? = some song) :
    (buildSongList f r detailed).Songs.length = r.Req0.Data.Songlist.length ∧
    ∃ line, (buildSongList f r detailed).Songs[i]? = some line ∧
      (line = " - " ↔
        ((if detailed then song.Name else f song.Name) = "" ∧
          stringsJoin (song.Singer.map Singer.Name) " / " = "")) ∧
      (song.Singer = [] → line = (if detailed then song.Name else f song.Name) ++ " - ") := by
  refine ⟨by simp [buildSongList_songs], songLine f detailed song, ?_, ?_, ?_⟩
  · simp [buildSongList_songs, List.getElem?_map, h]
  · simp only [songLine, singerNames_eq]
    exact append_separator_eq _ _
  · intro hs
    simp only [songLine, singerNames_eq, hs, List.map_nil]
    show _ ++ " - " ++ "" = _
    rw [String.append_empty]

/-- C9 amended, at a song named `Song` without artists. -/
theorem buildSongList_bare_separator_iff_witness :
    ∃ line,
      (buildSongList (fun name => name)
        { Code := 0
          Req0 :=
            { Code := 0
              Data :=
                { Dirinfo := { Title := "t", Songnum := 1 }
                  Songlist := [{ Name := "Song", Singer := [] }] } } }
        false).Songs[0]? = some line ∧ line = "Song" ++ " - " := by
  obtain ⟨_, line, h1, _, h3⟩ :=
    buildSongList_bare_separator_iff (fun name => name)
      { Code := 0
        Req0 :=
          { Code := 0
            Data :=
              { Dirinfo := { Title := "t", Songnum := 1 }
                Songlist := [{ Name := "Song", Singer := [] }] } } }
      false 0 { Name := "Song", Singer := [] } rfl
  exact ⟨line, h1, h3 rfl⟩

/-! ## Paginated fetch -/

theorem fetchPlaylistPageLoop_first (c : Collaborators) (tid songBegin songNum : Int)
    (pre : List String) (platform : String) (post : List String) (data : Bytes)
    (lastErr : Option Error)
    (hpre : ∀ q ∈ pre, platformFails c tid songBegin songNum q)
    (hok : c.PostWithHeaders (NewQQMusicReq tid platform songBegin songNum) = .ok data)
    (hlen : data.length ≠ 108) :
    fetchPlaylistPageLoop c tid songBegin songNum (pre ++ platform :: post) lastErr
      = (.ok data, postCalls tid songBegin songNum (pre ++ [platform])) := by
  induction pre generalizing lastErr with
  | nil =>
    simp [fetchPlaylistPageLoop, hok, qqMusicErrorResponseLength, hlen, postCalls]
  | cons q qs ih =>
    have hq := hpre q (List.mem_cons_self _ _)
    have hqs : ∀ x ∈ qs, platformFails c tid songBegin songNum x :=
      fun x hx => hpre x (List.mem_cons_of_mem _ hx)
    rcases hq with ⟨err, he⟩ | ⟨d, hd, hl⟩
    · simp [fetchPlaylistPageLoop, he, ih _ hqs, after, postCalls]
    · simp [fetchPlaylistPageLoop, hd, hl, qqMusicErrorResponseLength, ih _ hqs, after, postCalls]

theorem fetchPlaylistPageLoop_error_iff (c : Collaborators) (tid songBegin songNum : Int)
    (ps : List String) (lastErr : Option Error) :
    (∃ err, (fetchPlaylistPageLoop c tid songBegin songNum ps lastErr).1 = .error err)
      ↔ ∀ q ∈ ps, platformFails c tid songBegin songNum q := by
  induction ps generalizing lastErr with
  | nil =>
    cases lastErr <;> simp [fetchPlaylistPageLoop]
  | cons q qs ih =>
    cases hq : c.PostWithHeaders (NewQQMusicReq tid q songBegin songNum) with
    | error err =>
      have hf : platformFails c tid songBegin songNum q := Or.inl ⟨err, hq⟩
      simp [fetchPlaylistPageLoop, hq, after, ih, hf]
    | ok d =>
      by_cases hl : d.length = 108
      · have hf : platformFails c tid songBegin songNum q := Or.inr ⟨d, hq, hl⟩
        simp [fetchPlaylistPageLoop, hq, hl, qqMusicErrorResponseLength, after, ih, hf]
      · have hf : ¬ platformFails c tid songBegin songNum q := by
          rintro (⟨err, he⟩ | ⟨d', hd', hl'⟩)
          · rw [hq] at he
            cases he
          · rw [hq] at hd'
            cases hd'
            exact hl hl'
        simp [fetchPlaylistPageLoop, hq, hl, qqMusicErrorResponseLength, hf]

theorem fetchPlaylistPageLoop_all_fail (c : Collaborators) (tid songBegin songNum : Int)
    (ps : List String) (lastErr : Option Error)
    (hall : ∀ q ∈ ps, platformFails c tid songBegin songNum q) :
    (fetchPlaylistPageLoop c tid songBegin songNum ps lastErr).2
      = postCalls tid songBegin songNum ps := by
  induction ps generalizing lastErr with
  | nil =>
    cases lastErr <;> simp [fetchPlaylistPageLoop, postCalls]
  | cons q qs ih =>
    have hqs : ∀ x ∈ qs, platformFails c tid songBegin songNum x :=
      fun x hx => hall x (List.mem_cons_of_mem _ hx)
    rcases hall q (List.mem_cons_self _ _) with ⟨err, he⟩ | ⟨d, hd, hl⟩
    · simp [fetchPlaylistPageLoop, he, after, ih _ hqs, postCalls]
    · simp [fetchPlaylistPageLoop, hd, hl, qqMusicErrorResponseLength, after, ih _ hqs, postCalls]

/-- C5: `fetchPlaylistPage` tries the seven identities in the fixed order; it
returns the body of the first identity whose request succeeds with a length
other than 108 after issuing requests for that identity and the ones before it
only; it fails exactly when every identity gives a transport error or a body of
108 bytes, and then all seven requests were issued. -/
theorem fetchPlaylistPage_spec (c : Collaborators) (tid songBegin songNum : Int) :
    platforms = ["-1", "android", "iphone", "h5", "wxfshare", "iphone_wx", "windows"] ∧
    (∀ pre platform post data, platforms = pre ++ platform :: post →
      (∀ q ∈ pre, platformFails c tid songBegin songNum q) →
      c.PostWithHeaders (NewQQMusicReq tid platform songBegin songNum) = .ok data →
      data.length ≠ 108 →
      fetchPlaylistPage c tid songBegin songNum
        = (.ok data, postCalls tid songBegin songNum (pre ++ [platform]))) ∧
    ((∃ err, (fetchPlaylistPage c tid songBegin songNum).1 = .error err)
      ↔ ∀ q ∈ platforms, platformFails c tid songBegin songNum q) ∧
    ((∀ q ∈ platforms, platformFails c tid songBegin songNum q) →
      (fetchPlaylistPage c tid songBegin songNum).2
        = postCalls tid songBegin songNum platforms) := by
  refine ⟨rfl, ?_, ?_, ?_⟩
  · intro pre platform post data hsplit hpre hok hlen
    unfold fetchPlaylistPage
    rw [hsplit]
    exact fetchPlaylistPageLoop_first c tid songBegin songNum pre platform post data none
      hpre hok hlen
  · exact fetchPlaylistPageLoop_error_iff c tid songBegin songNum platforms none
  · exact fetchPlaylistPageLoop_all_fail c tid songBegin songNum platforms none

/-- C5 at `thirdAnswers`: exactly three requests, the third body returned. -/
theorem fetchPlaylistPage_spec_witness :
    fetchPlaylistPage thirdAnswers 7 0 1000
      = (.ok [123, 125, 10], postCalls 7 0 1000 ["-1", "android", "iphone"]) ∧
    (postCalls 7 0 1000 ["-1", "android", "iphone"]).length = 3 :=
  ⟨(fetchPlaylistPage_spec thirdAnswers 7 0 1000).2.1 ["-1", "android"] "iphone"
      ["h5", "wxfshare", "iphone_wx", "windows"] [123, 125, 10] rfl
      (by
        intro q hq
        simp only [List.mem_cons, List.mem_singleton, List.not_mem_nil, or_false] at hq
        rcases hq with rfl | rfl
        · exact Or.inl ⟨_, rfl⟩
        · exact Or.inr ⟨_, rfl, by decide⟩)
      rfl (by decide),
    rfl⟩

/-! ## Link shapes and their handlers -/

theorem extractPlaylistID_succ (c : Collaborators) (fuel : Nat) (link : String) :
    extractPlaylistID c (fuel + 1) link =
      (match classify link with
       | .PlaylistPath => some (extractNumberAfterKeyword link "playlist/", [])
       | .IdQueryParam => some (extractNumberAfterKeyword link "id=", [])
       | .ShortRedirect =>
         match c.GetRedirectLocation link with
         | .error err => some (.error (.wrap "处理短链接失败" err), [.redirect link])
         | .ok redirectedLink =>
           (extractPlaylistID c fuel redirectedLink).map (after [.redirect link])
       | .DetailsPage =>
         some
           (match c.GetQQMusicParam link with
            | .error err => .error (.wrap "提取歌单ID失败" err)
            | .ok tidString =>
              match Atoi (utf8 tidString) with
              | .error err => .error (.wrap "歌单ID格式错误" err)
              | .ok tid => .ok tid,
            [.getParam link])
       | .Unrecognized => some (.error (.new "无效的歌单链接格式"), [])) := by
  unfold classify
  rw [extractPlaylistID]
  by_cases h1 : playlistLinkRegex.MatchString link = true
  · simp [h1]
  · by_cases h2 : idParamLinkRegex.MatchString link = true
    · simp [h1, h2]
    · by_cases h3 : shortLinkRegex.MatchString link = true
      · simp [h1, h2, h3]
      · by_cases h4 : detailsLinkRegex.MatchString link = true
        · simp only [h1, h2, h3, h4, if_true, if_false, Bool.false_eq_true]
          cases c.GetQQMusicParam link with
          | error err => rfl
          | ok tidString =>
            simp only []
            cases Atoi (utf8 tidString) <;> rfl
        · simp [h1, h2, h3, h4]

theorem extractPlaylistID_calls (c : Collaborators) (n : Nat) (link : String)
    (res : Except Error Int) (tr : List Call)
    (h : extractPlaylistID c n link = some (res, tr)) :
    ∀ call ∈ tr, callOfOwnShape call := by
  induction n generalizing link res tr with
  | zero => simp [extractPlaylistID] at h
  | succ n ih =>
    rw [extractPlaylistID_succ] at h
    cases hc : classify link with
    | PlaylistPath =>
      simp only [hc, Option.some.injEq, Prod.mk.injEq] at h
      obtain ⟨_, rfl⟩ := h
      simp
    | IdQueryParam =>
      simp only [hc, Option.some.injEq, Prod.mk.injEq] at h
      obtain ⟨_, rfl⟩ := h
      simp
    | ShortRedirect =>
      simp only [hc] at h
      cases hr : c.GetRedirectLocation link with
      | error err =>
        simp only [hr, Option.some.injEq, Prod.mk.injEq] at h
        obtain ⟨_, rfl⟩ := h
        intro call hcall
        simp only [List.mem_singleton] at hcall
        exact Or.inl ⟨link, hcall, hc⟩
      | ok l =>
        simp only [hr] at h
        cases hrec : extractPlaylistID c n l with
        | none => simp [hrec] at h
        | some r =>
          obtain ⟨res', tr'⟩ := r
          simp only [hrec, Option.map_some', after, Option.some.injEq, Prod.mk.injEq] at h
          obtain ⟨_, rfl⟩ := h
          intro call hcall
          simp only [List.singleton_append, List.mem_cons] at hcall
          rcases hcall with rfl | hcall
          · exact Or.inl ⟨link, rfl, hc⟩
          · exact ih l res' tr' hrec call hcall
    | DetailsPage =>
      simp only [hc, Option.some.injEq, Prod.mk.injEq] at h
      obtain ⟨_, rfl⟩ := h
      intro call hcall
      simp only [List.mem_singleton] at hcall
      exact Or.inr ⟨link, hcall, hc⟩
    | Unrecognized =>
      simp only [hc, Option.some.injEq, Prod.mk.injEq] at h
      obtain ⟨_, rfl⟩ := h
      simp

theorem classify_of_early (link : String)
    (h : playlistLinkRegex.MatchString link = true ∨ idParamLinkRegex.MatchString link = true) :
    classify link = .PlaylistPath ∨ classify link = .IdQueryParam := by
  unfold classify
  by_cases h1 : playlistLinkRegex.MatchString link = true
  · simp [h1]
  · rcases h with h | h
    · exact absurd h h1
    · simp [h1, h]

theorem classify_of_short (link : String) (h : shortLinkRegex.MatchString link = true) :
    classify link ≠ .DetailsPage := by
  unfold classify
  by_cases h1 : playlistLinkRegex.MatchString link = true
  · simp [h1]
  · by_cases h2 : idParamLinkRegex.MatchString link = true
    · simp [h1, h2]
    · simp [h1, h2, h]

/-- C8: `extractPlaylistID` runs the handler of the first shape that matches
the raw link, in the order PlaylistPath, IdQueryParam, ShortRedirect,
DetailsPage, and no other: a link matching PlaylistPath or IdQueryParam makes
no external call whatever else it contains, a link matching ShortRedirect is
never handed to the details reader, an unrecognised link fails without a call,
and every call recorded is made for a link whose first matching shape is the
shape of the handler making it. -/
theorem extractPlaylistID_first_shape (c : Collaborators) (fuel : Nat) (link : String) :
    extractPlaylistID c (fuel + 1) link =
      (match classify link with
       | .PlaylistPath => some (extractNumberAfterKeyword link "playlist/", [])
       | .IdQueryParam => some (extractNumberAfterKeyword link "id=", [])
       | .ShortRedirect =>
         match c.GetRedirectLocation link with
         | .error err => some (.error (.wrap "处理短链接失败" err), [.redirect link])
         | .ok redirectedLink =>
           (extractPlaylistID c fuel redirectedLink).map (after [.redirect link])
       | .DetailsPage =>
         some
           (match c.GetQQMusicParam link with
            | .error err => .error (.wrap "提取歌单ID失败" err)
            | .ok tidString =>
              match Atoi (utf8 tidString) with
              | .error err => .error (.wrap "歌单ID格式错误" err)
              | .ok tid => .ok tid,
            [.getParam link])
       | .Unrecognized => some (.error (.new "无效的歌单链接格式"), [])) ∧
    ∀ n res tr, extractPlaylistID c n link = some (res, tr) →
      (∀ call ∈ tr, callOfOwnShape call) ∧
      (playlistLinkRegex.MatchString link = true ∨ idParamLinkRegex.MatchString link = true →
        tr = []) ∧
      (shortLinkRegex.MatchString link = true → Call.getParam link ∉ tr) := by
  refine ⟨extractPlaylistID_succ c fuel link, ?_⟩
  intro n res tr h
  have hcalls := extractPlaylistID_calls c n link res tr h
  refine ⟨hcalls, ?_, ?_⟩
  · intro hearly
    cases n with
    | zero => simp [extractPlaylistID] at h
    | succ n =>
      rw [extractPlaylistID_succ] at h
      rcases classify_of_early link hearly with hc | hc
      · simp only [hc, Option.some.injEq, Prod.mk.injEq] at h
        exact h.2.symm
      · simp only [hc, Option.some.injEq, Prod.mk.injEq] at h
        exact h.2.symm
  · intro hshort hmem
    rcases hcalls _ hmem with ⟨l, hl, _⟩ | ⟨l, hl, hd⟩
    · cases hl
    · cases hl
      exact classify_of_short link hshort hd

set_option maxRecDepth 1000000 in
/-- C8 at `shareLink`: one redirect call for the short link, then the reader
call for the landing page, and none for the short link itself. -/
theorem extractPlaylistID_first_shape_witness :
    extractPlaylistID shortToDetails 2 shareLink
      = some (.ok 7256912512, [.redirect shareLink, .getParam detailsLink]) ∧
    shortLinkRegex.MatchString shareLink = true ∧
    Call.getParam shareLink ∉ [Call.redirect shareLink, Call.getParam detailsLink] :=
  have h : extractPlaylistID shortToDetails 2 shareLink
      = some (.ok 7256912512, [.redirect shareLink, .getParam detailsLink]) := by decide
  have hs : shortLinkRegex.MatchString shareLink = true := by decide
  ⟨h, hs, ((extractPlaylistID_first_shape shortToDetails 0 shareLink).2 2 _ _ h).2.2 hs⟩

/-! ## Reading the number after the keyword -/

theorem utf8_append (a b : String) : utf8 (a ++ b) = utf8 a ++ utf8 b := by
  simp [utf8, String.data_append, List.flatMap_append]

theorem utf8EncodeChar_ascii (c : Char) (h : c.toNat ≤ 127) :
    (String.utf8EncodeChar c).map UInt8.toNat = [c.toNat] := by
  have hv : c.val ≤ 0x7f := by
    show c.val.toNat ≤ 127
    exact h
  simp only [String.utf8EncodeChar, hv, if_true, List.map]
  congr 1
  show (c.val.toNat.toUInt8).toNat = c.val.toNat
  have h2 : c.val.toNat ≤ 127 := h
  simp only [Nat.toUInt8, UInt8.ofNat, UInt8.toNat, BitVec.toNat_ofNat]
  omega

theorem utf8_digits (d : List Char) (hdig : ∀ ch ∈ d, isDigitChar ch = true) :
    (d.flatMap String.utf8EncodeChar).map UInt8.toNat = d.map Char.toNat := by
  induction d with
  | nil => rfl
  | cons c cs ih =>
    have hc := hdig c (List.mem_cons_self _ _)
    simp only [isDigitChar, Bool.and_eq_true, decide_eq_true_eq] at hc
    have := utf8EncodeChar_ascii c (by omega)
    simp only [List.flatMap_cons, List.map_append, List.map_cons, this,
      ih (fun ch h => hdig ch (List.mem_cons_of_mem _ h)), List.singleton_append]

theorem hasPrefix_append (x y sub : Bytes) (h : hasPrefix x sub = true) :
    hasPrefix (x ++ y) sub = true := by
  induction x generalizing sub with
  | nil =>
    cases sub with
    | nil => cases y <;> rfl
    | cons b p => simp [hasPrefix] at h
  | cons a s ih =>
    cases sub with
    | nil => rfl
    | cons b p =>
      simp only [hasPrefix, Bool.and_eq_true] at h
      simp only [List.cons_append, hasPrefix, Bool.and_eq_true]
      exact ⟨h.1, ih p h.2⟩

theorem hasPrefix_append_false (x y sub : Bytes) (h : hasPrefix x sub = false)
    (hlen : sub.length ≤ x.length) : hasPrefix (x ++ y) sub = false := by
  induction x generalizing sub with
  | nil =>
    cases sub with
    | nil => simp [hasPrefix] at h
    | cons b p => simp at hlen
  | cons a s ih =>
    cases sub with
    | nil => simp [hasPrefix] at h
    | cons b p =>
      simp only [List.length_cons, Nat.add_le_add_iff_right] at hlen
      simp only [hasPrefix, Bool.and_eq_false_iff] at h
      simp only [List.cons_append, hasPrefix, Bool.and_eq_false_iff]
      rcases h with h | h
      · exact Or.inl h
      · exact Or.inr (ih p h hlen)

theorem hasPrefix_length (x sub : Bytes) (h : hasPrefix x sub = true) :
    sub.length ≤ x.length := by
  induction x generalizing sub with
  | nil =>
    cases sub with
    | nil => simp
    | cons b p => simp [hasPrefix] at h
  | cons a s ih =>
    cases sub with
    | nil => simp
    | cons b p =>
      simp only [hasPrefix, Bool.and_eq_true] at h
      simp only [List.length_cons, Nat.add_le_add_iff_right]
      exact ih p h.2

theorem stringsIndex_length (x sub : Bytes) (h : 0 ≤ stringsIndex x sub) :
    sub.length ≤ x.length := by
  induction x with
  | nil =>
    cases sub with
    | nil => simp
    | cons b p => simp [stringsIndex] at h
  | cons a s ih =>
    rw [stringsIndex] at h
    by_cases hp : hasPrefix (a :: s) sub = true
    · exact hasPrefix_length _ _ hp
    · simp only [hp, Bool.false_eq_true, if_false] at h
      by_cases hr : stringsIndex s sub < 0
      · simp [hr] at h
      · have := ih (by omega)
        simp only [List.length_cons]
        omega

theorem stringsIndex_append (x y sub : Bytes) (h : 0 ≤ stringsIndex x sub) :
    stringsIndex (x ++ y) sub = stringsIndex x sub := by
  induction x with
  | nil =>
    cases sub with
    | nil => cases y <;> simp [stringsIndex, hasPrefix]
    | cons b p => simp [stringsIndex] at h
  | cons a s ih =>
    rw [stringsIndex] at h
    rw [List.cons_append, stringsIndex, stringsIndex]
    by_cases hp : hasPrefix (a :: s) sub = true
    · have := hasPrefix_append (a :: s) y sub hp
      rw [List.cons_append] at this
      simp [hp, this]
    · simp only [hp, Bool.false_eq_true, if_false] at h ⊢
      by_cases hr : stringsIndex s sub < 0
      · simp [hr] at h
      · have h0 : 0 ≤ stringsIndex s sub := by omega
        have hlen := stringsIndex_length s sub h0
        have hf := hasPrefix_append_false (a :: s) y sub (by simpa using hp)
          (by simp only [List.length_cons]; omega)
        rw [List.cons_append] at hf
        simp only [hf, Bool.false_eq_true, if_false, ih h0]

theorem digitsEnd_run (d t : Bytes) (i : Nat)
    (hd : ∀ b ∈ d, 48 ≤ b ∧ b ≤ 57)
    (ht : ∀ b, t.head? = some b → (b < 48 ∨ b > 57)) :
    digitsEnd (d ++ t) i = i + d.length := by
  induction d generalizing i with
  | nil =>
    cases t with
    | nil => simp [digitsEnd]
    | cons b r =>
      have := ht b rfl
      simp only [List.nil_append, digitsEnd, List.length_nil, Nat.add_zero]
      rw [if_pos]
      simpa using this
  | cons b r ih =>
    have hb := hd b (List.mem_cons_self _ _)
    rw [List.cons_append, digitsEnd, if_neg (by simp; omega),
      ih (i + 1) (fun x hx => hd x (List.mem_cons_of_mem _ hx)), List.length_cons]
    omega

theorem bytesValue_le (d : Bytes) (n : Nat) : n ≤ bytesValue d n := by
  induction d generalizing n with
  | nil => simp [bytesValue]
  | cons b r ih =>
    have := ih (n * 10 + (b - 48))
    simp only [bytesValue, List.foldl_cons] at this ⊢
    omega

theorem parseUintLoop_digits (d : Bytes) (n : Nat)
    (hd : ∀ b ∈ d, 48 ≤ b ∧ b ≤ 57) (hfit : bytesValue d n ≤ 2 ^ 64 - 1) :
    parseUintLoop d n = .value (bytesValue d n) := by
  induction d generalizing n with
  | nil => rfl
  | cons b r ih =>
    have hb := hd b (List.mem_cons_self _ _)
    have hle := bytesValue_le r (n * 10 + (b - 48))
    have hfit' : bytesValue r (n * 10 + (b - 48)) ≤ 2 ^ 64 - 1 := hfit
    rw [parseUintLoop, if_neg (by simp; omega), if_neg (by omega)]
    exact ih _ (fun x hx => hd x (List.mem_cons_of_mem _ hx)) hfit'

theorem Atoi_digits (d : Bytes) (hne : d ≠ [])
    (hd : ∀ b ∈ d, 48 ≤ b ∧ b ≤ 57) (hfit : bytesValue d 0 < 2 ^ 63) :
    Atoi d = .ok (bytesValue d 0 : Nat) := by
  cases d with
  | nil => exact absurd rfl hne
  | cons b r =>
    have hb := hd b (List.mem_cons_self _ _)
    have e45 : ((some b : Option Nat) == some 45) = false := by
      simp only [beq_eq_false_iff_ne, ne_eq, Option.some.injEq]
      omega
    have e43 : ((some b : Option Nat) == some 43) = false := by
      simp only [beq_eq_false_iff_ne, ne_eq, Option.some.injEq]
      omega
    have hp := parseUintLoop_digits (b :: r) 0 hd (by omega)
    have hge : ¬ bytesValue (b :: r) 0 ≥ 2 ^ 63 := by omega
    simp only [Atoi, List.head?_cons, e45, e43, Bool.or_self, Bool.false_eq_true, if_false,
      List.isEmpty_cons, hp, Bool.not_false, Bool.true_and, Bool.false_and,
      decide_eq_true_eq, hge]

theorem bytesValue_map (d : List Char) (n : Nat) :
    bytesValue (d.map Char.toNat) n = d.foldl (fun n c => n * 10 + (c.toNat - 48)) n := by
  induction d generalizing n with
  | nil => rfl
  | cons c cs ih =>
    simp only [List.map_cons, bytesValue, List.foldl_cons]
    exact ih _

/-- When the first occurrence of the keyword is the one in front of the digit
run, `extractNumberAfterKeyword` reads the whole run. -/
theorem extractNumberAfterKeyword_value (p keyword d t : String)
    (hne : d.data ≠ []) (hdig : ∀ ch ∈ d.data, isDigitChar ch = true)
    (hfit : decimalValue d.data < 2 ^ 63)
    (ht : ∀ b, (utf8 t).head? = some b → (b < 48 ∨ b > 57))
    (hfirst : stringsIndex (utf8 p ++ utf8 keyword) (utf8 keyword) = ((utf8 p).length : Int)) :
    extractNumberAfterKeyword (p ++ keyword ++ d ++ t) keyword
      = .ok (decimalValue d.data : Nat) := by
  have hD : utf8 d = d.data.map Char.toNat := utf8_digits d.data hdig
  have hbytes : ∀ b ∈ utf8 d, 48 ≤ b ∧ b ≤ 57 := by
    intro b hb
    rw [hD, List.mem_map] at hb
    obtain ⟨ch, hch, rfl⟩ := hb
    have := hdig ch hch
    simpa [isDigitChar] using this
  have hval : bytesValue (utf8 d) 0 = decimalValue d.data := by
    rw [hD, bytesValue_map]
    rfl
  have hs : utf8 (p ++ keyword ++ d ++ t)
      = (utf8 p ++ utf8 keyword) ++ (utf8 d ++ utf8 t) := by
    simp only [utf8_append, List.append_assoc]
  have hidx : stringsIndex (utf8 (p ++ keyword ++ d ++ t)) (utf8 keyword)
      = ((utf8 p).length : Int) := by
    rw [hs, stringsIndex_append _ _ _ (by rw [hfirst]; omega), hfirst]
  have hdrop : (utf8 (p ++ keyword ++ d ++ t)).drop ((utf8 p).length + (utf8 keyword).length)
      = utf8 d ++ utf8 t := by
    rw [hs, ← List.length_append, List.drop_left]
  have hnil : utf8 d ≠ [] := by
    rw [hD]
    simpa using hne
  unfold extractNumberAfterKeyword
  simp only [hidx, Int.toNat_ofNat, hdrop]
  rw [if_neg (by omega), digitsEnd_run (utf8 d) (utf8 t) _ hbytes ht]
  simp only [Nat.add_sub_cancel_left, List.take_left',
    Atoi_digits (utf8 d) hnil hbytes (by rw [hval]; exact hfit), hval]

/-- Where the only `playlist/` of the link is the one in front of the final
digits, `extractPlaylistID` returns their value and calls no collaborator. -/
theorem extractPlaylistID_playlistPath_value (c : Collaborators) (fuel : Nat) (p d : String)
    (hne : d.data ≠ []) (hdig : ∀ ch ∈ d.data, isDigitChar ch = true)
    (hfit : decimalValue d.data < 2 ^ 63)
    (hfirst : stringsIndex (utf8 p ++ utf8 "playlist/") (utf8 "playlist/")
      = ((utf8 p).length : Int)) :
    extractPlaylistID c (fuel + 1) (p ++ "playlist/" ++ d)
      = some (.ok (decimalValue d.data : Nat), []) := by
  have hm : playlistLinkRegex.MatchString (p ++ "playlist/" ++ d) = true := by
    rw [playlistLinkRegex_iff]
    exact ⟨p.data, d.data, by simp [String.data_append], hne, hdig⟩
  have hv := extractNumberAfterKeyword_value p "playlist/" d "" hne hdig hfit
    (by intro b hb; simp [utf8] at hb) hfirst
  rw [String.append_empty] at hv
  rw [extractPlaylistID]
  simp only [hm, if_true, hv]

set_option maxRecDepth 1000000 in
/-- The playlist link of the specification's example yields 123456. -/
theorem extractPlaylistID_playlistPath_value_witness :
    extractPlaylistID failing 1 ("https://y.qq.com/n/ryqq/" ++ "playlist/" ++ "123456")
      = some (.ok 123456, []) :=
  extractPlaylistID_playlistPath_value failing 0 "https://y.qq.com/n/ryqq/" "123456"
    (by decide) (by decide) (by decide) (by decide)

/-- Where the link is not of PlaylistPath shape and its first `id=` is
followed by a digit run that a non-digit or the end of the link closes,
`extractPlaylistID` returns the value of the run and calls no collaborator. -/
theorem extractPlaylistID_idParam_value (c : Collaborators) (fuel : Nat) (p d t : String)
    (hne : d.data ≠ []) (hdig : ∀ ch ∈ d.data, isDigitChar ch = true)
    (hfit : decimalValue d.data < 2 ^ 63)
    (ht : ∀ b, (utf8 t).head? = some b → (b < 48 ∨ b > 57))
    (hnot : playlistLinkRegex.MatchString (p ++ "id=" ++ d ++ t) = false)
    (hfirst : stringsIndex (utf8 p ++ utf8 "id=") (utf8 "id=") = ((utf8 p).length : Int)) :
    extractPlaylistID c (fuel + 1) (p ++ "id=" ++ d ++ t)
      = some (.ok (decimalValue d.data : Nat), []) := by
  have hm : idParamLinkRegex.MatchString (p ++ "id=" ++ d ++ t) = true := by
    rw [idParamLinkRegex_iff]
    cases hd : d.data with
    | nil => exact absurd hd hne
    | cons d0 ds =>
      refine ⟨p.data, d0, ds ++ t.data, by simp [String.data_append, hd], ?_⟩
      exact hdig d0 (by rw [hd]; exact List.mem_cons_self _ _)
  have hv := extractNumberAfterKeyword_value p "id=" d t hne hdig hfit ht hfirst
  rw [extractPlaylistID]
  simp only [hnot, hm, if_true, Bool.false_eq_true, if_false, hv]

set_option maxRecDepth 1000000 in
/-- The `id=` link of the specification's example yields 98765. -/
theorem extractPlaylistID_idParam_value_witness :
    extractPlaylistID failing 1
        ("https://y.qq.com/n/m/detail/taoge/index.html?" ++ "id=" ++ "98765" ++ "&foo=1")
      = some (.ok 98765, []) :=
  extractPlaylistID_idParam_value failing 0 "https://y.qq.com/n/m/detail/taoge/index.html?"
    "98765" "&foo=1" (by decide) (by decide) (by decide) (by decide) (by decide) (by decide)

/-! ## The keyword is located by its first occurrence -/

set_option maxRecDepth 1000000 in
/-- C1 at a link whose text has `playlist/` twice: the pattern matches on the
digits at the end, the extraction reads after the first `playlist/`, finds no
digit there, and fails. -/
theorem extractPlaylistID_playlist_twice (c : Collaborators) (fuel : Nat) :
    playlistLinkRegex.MatchString "https://y.qq.com/playlist/u/playlist/123456" = true ∧
    extractPlaylistID c (fuel + 1) "https://y.qq.com/playlist/u/playlist/123456"
      = some (.error (.wrap "数字转换失败" (.numError [] false)), []) := by
  have hm : playlistLinkRegex.MatchString "https://y.qq.com/playlist/u/playlist/123456"
      = true := by decide
  refine ⟨hm, ?_⟩
  rw [extractPlaylistID]
  simp only [hm, if_true]
  have he : extractNumberAfterKeyword "https://y.qq.com/playlist/u/playlist/123456" "playlist/"
      = .error (.wrap "数字转换失败" (.numError [] false)) := by decide
  rw [he]

set_option maxRecDepth 1000000 in
/-- C2 at a link whose query has `uid=` before `id=98765`: the pattern matches
`id=98765`, the extraction reads after the `id=` inside `uid=`, finds no digit
there, and fails. -/
theorem extractPlaylistID_id_inside_uid (c : Collaborators) (fuel : Nat) :
    playlistLinkRegex.MatchString "https://y.qq.com/n/ryqq/playlist?uid=&id=98765&foo=1"
      = false ∧
    idParamLinkRegex.MatchString "https://y.qq.com/n/ryqq/playlist?uid=&id=98765&foo=1"
      = true ∧
    extractPlaylistID c (fuel + 1) "https://y.qq.com/n/ryqq/playlist?uid=&id=98765&foo=1"
      = some (.error (.wrap "数字转换失败" (.numError [] false)), []) := by
  have hp : playlistLinkRegex.MatchString
      "https://y.qq.com/n/ryqq/playlist?uid=&id=98765&foo=1" = false := by decide
  have hm : idParamLinkRegex.MatchString
      "https://y.qq.com/n/ryqq/playlist?uid=&id=98765&foo=1" = true := by decide
  refine ⟨hp, hm, ?_⟩
  rw [extractPlaylistID]
  simp only [hp, hm, if_true, Bool.false_eq_true, if_false]
  have he : extractNumberAfterKeyword
      "https://y.qq.com/n/ryqq/playlist?uid=&id=98765&foo=1" "id="
      = .error (.wrap "数字转换失败" (.numError [] false)) := by decide
  rw [he]

/-! ## The entry point and the fetch orchestrator -/

theorem callOfOwnShape_not_fetch (call : Call) (h : callOfOwnShape call) :
    isFetchCall call = false := by
  rcases h with ⟨l, rfl, _⟩ | ⟨l, rfl, _⟩ <;> rfl

theorem fetchPlaylistPageLoop_calls (c : Collaborators) (tid songBegin songNum : Int)
    (ps : List String) (lastErr : Option Error) :
    ∀ call ∈ (fetchPlaylistPageLoop c tid songBegin songNum ps lastErr).2,
      ∃ req, call = .post req := by
  induction ps generalizing lastErr with
  | nil => cases lastErr <;> simp [fetchPlaylistPageLoop]
  | cons q qs ih =>
    intro call hcall
    rw [fetchPlaylistPageLoop] at hcall
    cases hq : c.PostWithHeaders (NewQQMusicReq tid q songBegin songNum) with
    | error err =>
      simp only [hq, after, List.singleton_append, List.mem_cons] at hcall
      rcases hcall with rfl | hcall
      · exact ⟨_, rfl⟩
      · exact ih _ call hcall
    | ok d =>
      simp only [hq] at hcall
      split at hcall
      · simp only [List.mem_singleton] at hcall
        exact ⟨_, hcall⟩
      · simp only [after, List.singleton_append, List.mem_cons] at hcall
        rcases hcall with rfl | hcall
        · exact ⟨_, rfl⟩
        · exact ih _ call hcall

theorem fetchPlaylistViaLegacyAPI_calls (c : Collaborators) (tid : Int) :
    ∃ url, (fetchPlaylistViaLegacyAPI c tid).2 = [.legacyGet url] := by
  unfold fetchPlaylistViaLegacyAPI
  refine ⟨qqMusicLegacyAPIURL ++ "?type=1&utf8=1&disstid=" ++ toString tid ++ "&loginUin=0", ?_⟩
  simp only []
  split
  · rfl
  · rfl
  · rfl
  · simp only [after]
    split
    · rfl
    · split
      · rfl
      · split
        · rfl
        · split <;> rfl

theorem fetchPlaylistData_fetchData (c : Collaborators) (tid t : Int)
    (h : Call.fetchData t ∈ (fetchPlaylistData c tid).2) : t = tid := by
  obtain ⟨url, hurl⟩ := fetchPlaylistViaLegacyAPI_calls c tid
  unfold fetchPlaylistData at h
  cases hl : fetchPlaylistViaLegacyAPI c tid with
  | mk r calls =>
    rw [hl] at hurl h
    simp only [] at hurl
    subst hurl
    cases r with
    | error e =>
      simp only [after, List.singleton_append, List.mem_cons, Call.fetchData.injEq,
        List.cons_append, List.nil_append, reduceCtorEq, false_or] at h
      rcases h with h | h
      · exact h
      · obtain ⟨req, hreq⟩ := fetchPlaylistPageLoop_calls c tid 0 maxSongsPerPage platforms none
          _ h
        cases hreq
    | ok d =>
      simp only [after, List.singleton_append, List.mem_cons, Call.fetchData.injEq,
        List.mem_singleton, reduceCtorEq, or_false, false_or, List.not_mem_nil] at h
      exact h

/-- C6: when identifier extraction yields 0, `QQMusicDiscover` returns the
invalid-link error, and the calls made are those of the extraction alone, none
of them to the fetch orchestrator. -/
theorem QQMusicDiscover_zero_id (c : Collaborators) (fuel : Nat) (link : String)
    (detailed : Bool) (tr : List Call)
    (h : extractPlaylistID c fuel link = some (.ok 0, tr)) :
    QQMusicDiscover c fuel link detailed = some (.error (.new "无效的歌单链接"), tr) ∧
    ∀ call ∈ tr, isFetchCall call = false := by
  refine ⟨?_, ?_⟩
  · unfold QQMusicDiscover
    rw [h]
    simp
  · intro call hcall
    exact callOfOwnShape_not_fetch call (extractPlaylistID_calls c fuel link _ tr h call hcall)

set_option maxRecDepth 1000000 in
/-- C6 at a link ending in `playlist/0`. -/
theorem QQMusicDiscover_zero_id_witness :
    extractPlaylistID failing 1 "https://y.qq.com/n/ryqq/playlist/0" = some (.ok 0, []) ∧
    QQMusicDiscover failing 1 "https://y.qq.com/n/ryqq/playlist/0" true
      = some (.error (.new "无效的歌单链接"), []) :=
  have h : extractPlaylistID failing 1 "https://y.qq.com/n/ryqq/playlist/0"
      = some (.ok 0, []) := by decide
  ⟨h, (QQMusicDiscover_zero_id failing 1 "https://y.qq.com/n/ryqq/playlist/0" true [] h).1⟩

set_option maxRecDepth 1000000 in
/-- A link containing `id=0` also yields the identifier 0. -/
theorem extractPlaylistID_id_zero :
    extractPlaylistID failing 1 "https://y.qq.com/n/m/detail/taoge/index.html?id=0"
      = some (.ok 0, []) := by decide

set_option maxRecDepth 1000000 in
/-- C7 fails as stated: for a details page whose reader yields `-5` the
identifier is negative, yet `fetchPlaylistData` is entered with `-5` and a
playlist is returned. -/
theorem QQMusicDiscover_negative_id_fetches :
    extractPlaylistID negativeDetails 1 detailsLink
      = some (.ok (-5), [.getParam detailsLink]) ∧
    QQMusicDiscover negativeDetails 1 detailsLink true
      = some
          (.ok { Name := "Road Trip", Songs := ["First - A / B", "Second - "], SongsCount := 2 },
            [.getParam detailsLink, .fetchData (-5),
              .legacyGet
                "http://c.y.qq.com/qzone/fcg-bin/fcg_ucc_getcdinfo_byids_cp.fcg?type=1&utf8=1&disstid=-5&loginUin=0"]) := by
  constructor <;> decide

theorem QQMusicDiscover_calls (c : Collaborators) (fuel : Nat) (link : String)
    (detailed : Bool) (res : Except Error SongList) (tr : List Call)
    (h : QQMusicDiscover c fuel link detailed = some (res, tr)) :
    (∃ r tr0, extractPlaylistID c fuel link = some (r, tr0) ∧
      (r = .ok 0 ∨ ∃ err, r = .error err) ∧
      res = .error (.new "无效的歌单链接") ∧ tr = tr0) ∨
    (∃ tid tr0, extractPlaylistID c fuel link = some (.ok tid, tr0) ∧ tid ≠ 0 ∧
      tr = tr0 ++ (fetchPlaylistData c tid).2) := by
  unfold QQMusicDiscover at h
  cases he : extractPlaylistID c fuel link with
  | none => simp [he] at h
  | some p =>
    obtain ⟨r, tr0⟩ := p
    cases r with
    | error err =>
      simp only [he, Option.some.injEq, Prod.mk.injEq] at h
      exact Or.inl ⟨_, tr0, rfl, Or.inr ⟨err, rfl⟩, h.1.symm, h.2.symm⟩
    | ok tid =>
      simp only [he] at h
      by_cases h0 : tid = 0
      · subst h0
        simp only [beq_self_eq_true, if_true, Option.some.injEq, Prod.mk.injEq] at h
        exact Or.inl ⟨_, tr0, rfl, Or.inl rfl, h.1.symm, h.2.symm⟩
      · have hb : (tid == 0) = false := by simpa using h0
        simp only [hb, Bool.false_eq_true, if_false, Option.some.injEq] at h
        refine Or.inr ⟨tid, tr0, rfl, h0, ?_⟩
        have htr : tr = _ := (congrArg Prod.snd h).symm
        rw [htr]
        cases hf : fetchPlaylistData c tid with
        | mk fr calls =>
          cases fr with
          | error e => simp [after]
          | ok d =>
            simp only [after]
            cases c.UnmarshalResp d <;> rfl

/-- C7 amended: when the identifier extracted is zero or extraction fails,
`QQMusicDiscover` returns the invalid-link error and the fetch orchestrator is
not entered; whenever `fetchPlaylistData` is entered, its argument is the
identifier extracted from the link and is not zero. -/
theorem QQMusicDiscover_fetch_nonzero (c : Collaborators) (fuel : Nat) (link : String)
    (detailed : Bool) (res : Except Error SongList) (tr : List Call)
    (h : QQMusicDiscover c fuel link detailed = some (res, tr)) :
    (∀ tid, Call.fetchData tid ∈ tr →
      tid ≠ 0 ∧ ∃ tr0, extractPlaylistID c fuel link = some (.ok tid, tr0)) ∧
    ((∃ tr0, extractPlaylistID c fuel link = some (.ok 0, tr0)) ∨
        (∃ err tr0, extractPlaylistID c fuel link = some (.error err, tr0)) →
      res = .error (.new "无效的歌单链接") ∧ ∀ call ∈ tr, isFetchCall call = false) := by
  rcases QQMusicDiscover_calls c fuel link detailed res tr h with
    ⟨r, tr0, he, _, hres, htr⟩ | ⟨tid, tr0, he, h0, htr⟩
  · have hno : ∀ call ∈ tr, isFetchCall call = false := by
      intro call hcall
      rw [htr] at hcall
      exact callOfOwnShape_not_fetch call (extractPlaylistID_calls c fuel link r tr0 he call hcall)
    refine ⟨?_, fun _ => ⟨hres, hno⟩⟩
    intro tid hmem
    have := hno _ hmem
    simp [isFetchCall] at this
  · refine ⟨?_, ?_⟩
    · intro t hmem
      rw [htr, List.mem_append] at hmem
      rcases hmem with hmem | hmem
      · have := callOfOwnShape_not_fetch _
          (extractPlaylistID_calls c fuel link _ tr0 he _ hmem)
        simp [isFetchCall] at this
      · have ht := fetchPlaylistData_fetchData c tid t hmem
        subst ht
        exact ⟨h0, tr0, he⟩
    · rintro (⟨tr1, h1⟩ | ⟨err, tr1, h1⟩)
      · rw [he] at h1
        simp only [Option.some.injEq, Prod.mk.injEq, Except.ok.injEq] at h1
        exact absurd h1.1 h0
      · rw [he] at h1
        simp at h1

set_option maxRecDepth 1000000 in
/-- C7 amended, at the details page whose reader yields `-5`. -/
theorem QQMusicDiscover_fetch_nonzero_witness :
    (-5 : Int) ≠ 0 ∧
    ∃ tr0, extractPlaylistID negativeDetails 1 detailsLink = some (.ok (-5), tr0) :=
  (QQMusicDiscover_fetch_nonzero negativeDetails 1 detailsLink true
      (.ok { Name := "Road Trip", Songs := ["First - A / B", "Second - "], SongsCount := 2 })
      [.getParam detailsLink, .fetchData (-5),
        .legacyGet
          "http://c.y.qq.com/qzone/fcg-bin/fcg_ucc_getcdinfo_byids_cp.fcg?type=1&utf8=1&disstid=-5&loginUin=0"]
      (by decide)).1 (-5) (by decide)

/-! ## Redirect chains -/

theorem extractPlaylistID_none_iff (c : Collaborators) (n : Nat) (link : String) :
    extractPlaylistID c n link = none ↔ (landing c n link).isSome = true := by
  induction n generalizing link with
  | zero => simp [extractPlaylistID, landing]
  | succ n ih =>
    rw [extractPlaylistID_succ, landing]
    cases hc : classify link with
    | ShortRedirect =>
      cases hr : c.GetRedirectLocation link with
      | error err => simp
      | ok l => simp [ih l]
    | PlaylistPath => simp
    | IdQueryParam => simp
    | DetailsPage => simp
    | Unrecognized => simp

theorem extractPlaylistID_mono (c : Collaborators) (n m : Nat) (link : String)
    (r : Except Error Int × List Call)
    (h : extractPlaylistID c n link = some r) (hnm : n ≤ m) :
    extractPlaylistID c m link = some r := by
  induction n generalizing link r m with
  | zero => simp [extractPlaylistID] at h
  | succ n ih =>
    cases m with
    | zero => omega
    | succ m =>
      rw [extractPlaylistID_succ] at h ⊢
      cases hc : classify link with
      | ShortRedirect =>
        rw [hc] at h
        simp only [] at h ⊢
        cases hr : c.GetRedirectLocation link with
        | error err =>
          rw [hr] at h
          exact h
        | ok l =>
          rw [hr] at h
          simp only [] at h ⊢
          cases hrec : extractPlaylistID c n l with
          | none => simp [hrec] at h
          | some r' =>
            rw [hrec] at h
            rw [ih m l r' hrec (by omega)]
            exact h
      | PlaylistPath => rw [hc] at h; exact h
      | IdQueryParam => rw [hc] at h; exact h
      | DetailsPage => rw [hc] at h; exact h
      | Unrecognized => rw [hc] at h; exact h

theorem extractPlaylistID_redirectCount (c : Collaborators) (n : Nat) (link : String)
    (res : Except Error Int) (tr : List Call)
    (h : extractPlaylistID c n link = some (res, tr)) :
    redirectCount tr ≤ n ∧ ∀ k l, landing c k link = some l → k ≤ redirectCount tr := by
  induction n generalizing link res tr with
  | zero => simp [extractPlaylistID] at h
  | succ n ih =>
    rw [extractPlaylistID_succ] at h
    have hzero : ∀ k l, classify link ≠ .ShortRedirect → landing c k link = some l → k = 0 := by
      intro k l hne hk
      cases k with
      | zero => rfl
      | succ k => simp [landing, hne] at hk
    cases hc : classify link with
    | ShortRedirect =>
      rw [hc] at h
      simp only [] at h
      cases hr : c.GetRedirectLocation link with
      | error err =>
        rw [hr] at h
        simp only [Option.some.injEq, Prod.mk.injEq] at h
        obtain ⟨_, rfl⟩ := h
        refine ⟨by simp [redirectCount], ?_⟩
        intro k l hk
        cases k with
        | zero => omega
        | succ k => simp [landing, hc, hr] at hk
      | ok l' =>
        rw [hr] at h
        simp only [] at h
        cases hrec : extractPlaylistID c n l' with
        | none => simp [hrec] at h
        | some r' =>
          obtain ⟨res', tr'⟩ := r'
          rw [hrec] at h
          simp only [Option.map_some', after, Option.some.injEq, Prod.mk.injEq] at h
          obtain ⟨_, rfl⟩ := h
          obtain ⟨h1, h2⟩ := ih l' res' tr' hrec
          have hcount : redirectCount ([Call.redirect link] ++ tr') = redirectCount tr' + 1 := by
            simp [redirectCount]
          rw [hcount]
          refine ⟨by omega, ?_⟩
          intro k l hk
          cases k with
          | zero => omega
          | succ k =>
            simp only [landing, hc, hr, if_true] at hk
            have := h2 k l hk
            omega
    | PlaylistPath =>
      rw [hc] at h
      simp only [Option.some.injEq, Prod.mk.injEq] at h
      obtain ⟨_, rfl⟩ := h
      refine ⟨by simp [redirectCount], fun k l hk => ?_⟩
      have := hzero k l (by simp [hc]) hk
      omega
    | IdQueryParam =>
      rw [hc] at h
      simp only [Option.some.injEq, Prod.mk.injEq] at h
      obtain ⟨_, rfl⟩ := h
      refine ⟨by simp [redirectCount], fun k l hk => ?_⟩
      have := hzero k l (by simp [hc]) hk
      omega
    | DetailsPage =>
      rw [hc] at h
      simp only [Option.some.injEq, Prod.mk.injEq] at h
      obtain ⟨_, rfl⟩ := h
      refine ⟨by simp [redirectCount], fun k l hk => ?_⟩
      have := hzero k l (by simp [hc]) hk
      omega
    | Unrecognized =>
      rw [hc] at h
      simp only [Option.some.injEq, Prod.mk.injEq] at h
      obtain ⟨_, rfl⟩ := h
      refine ⟨by simp [redirectCount], fun k l hk => ?_⟩
      have := hzero k l (by simp [hc]) hk
      omega

theorem landing_self (c : Collaborators) (link : String)
    (hc : classify link = .ShortRedirect) (hr : c.GetRedirectLocation link = .ok link)
    (n : Nat) : landing c n link = some link := by
  induction n with
  | zero => rfl
  | succ n ih => simp [landing, hc, hr, ih]

theorem extractPlaylistID_self_redirect (c : Collaborators) (link : String)
    (hc : classify link = .ShortRedirect) (hr : c.GetRedirectLocation link = .ok link)
    (n : Nat) : extractPlaylistID c n link = none := by
  rw [extractPlaylistID_none_iff, landing_self c link hc hr n]
  rfl

set_option maxRecDepth 1000000 in
/-- C10 fails as stated: four redirect-resolution calls are made for a chain
of four short links, and the identifier at its end is returned rather than an
error; with a resolver mapping a short link to itself no recursion depth
suffices for the function to return. -/
theorem extractPlaylistID_exceeds_three_redirects :
    extractPlaylistID fourHops 5 hop1
      = some (.ok 5, [.redirect hop1, .redirect hop2, .redirect hop3, .redirect hop4]) ∧
    ¬ ∃ n r, extractPlaylistID selfRedirect n shareLink = some r := by
  refine ⟨by decide, ?_⟩
  rintro ⟨n, r, h⟩
  rw [extractPlaylistID_self_redirect selfRedirect shareLink (by decide) rfl n] at h
  cases h

/-- C10 amended: `extractPlaylistID` has no depth cap.  It fails to return
within `n` levels exactly when the first `n` hops of the redirect chain all
start from a ShortRedirect link that resolves; once it returns, deeper budgets
give the same answer, and the redirect-resolution calls made are at most one
per level and at least one per hop of the chain; on a ShortRedirect link that
resolves to itself it never returns. -/
theorem extractPlaylistID_no_depth_cap (c : Collaborators) (link : String) :
    (∀ n, extractPlaylistID c n link = none ↔ (landing c n link).isSome = true) ∧
    (∀ n m r, extractPlaylistID c n link = some r → n ≤ m →
      extractPlaylistID c m link = some r) ∧
    (∀ n res tr, extractPlaylistID c n link = some (res, tr) →
      redirectCount tr ≤ n ∧ ∀ k l, landing c k link = some l → k ≤ redirectCount tr) ∧
    (classify link = .ShortRedirect → c.GetRedirectLocation link = .ok link →
      ∀ n, extractPlaylistID c n link = none) :=
  ⟨fun n => extractPlaylistID_none_iff c n link,
    fun n m r h hnm => extractPlaylistID_mono c n m link r h hnm,
    fun n res tr h => extractPlaylistID_redirectCount c n link res tr h,
    fun hc hr n => extractPlaylistID_self_redirect c link hc hr n⟩

set_option maxRecDepth 1000000 in
/-- C10 amended, at the chain of four short links: it returns with five
levels, so also with nine, after at least four redirect-resolution calls. -/
theorem extractPlaylistID_no_depth_cap_witness :
    extractPlaylistID fourHops 9 hop1
      = some (.ok 5, [.redirect hop1, .redirect hop2, .redirect hop3, .redirect hop4]) ∧
    4 ≤ redirectCount [.redirect hop1, .redirect hop2, .redirect hop3, .redirect hop4] :=
  have h : extractPlaylistID fourHops 5 hop1
      = some (.ok 5, [.redirect hop1, .redirect hop2, .redirect hop3, .redirect hop4]) := by
    decide
  ⟨(extractPlaylistID_no_depth_cap fourHops hop1).2.1 5 9 _ h (by decide),
    ((extractPlaylistID_no_depth_cap fourHops hop1).2.2.1 5 _ _ h).2 4 hopEnd (by decide)⟩

end GoMusic
